import Mathlib

/-!  Verification of the metadata-resolution core of Livrando.py.

The Python source is embedded shallowly: strings are Lean `String`s,
Python floats are modelled by `ℚ`, fallible operations return `Option`.
Character-level predicates (`isPySpace`, `pyIsPrintable`, lower-casing)
model Python's behaviour exactly on the ASCII and Latin-1 ranges that the
repository's data uses; code points above `0x2000` are approximated as
documented on each definition.  -/

namespace Livrando

/-- Characters matched by Python's regex class `\s` (and stripped by
`str.strip`), for the code points this embedding models. -/
def isPySpace (c : Char) : Bool :=
  c = ' ' || c = '\t' || c = '\n' || c = '\x0b' || c = '\x0c' || c = '\r' ||
  c = '\x1c' || c = '\x1d' || c = '\x1e' || c = '\x1f' ||
  c = '\x85' || c = '\xa0' || c = ' ' ||
  (0x2000 ≤ c.toNat && c.toNat ≤ 0x200a) ||
  c = ' ' || c = ' ' || c = ' ' || c = ' ' || c = '　'

/-- Python `str.isprintable`, exact below `0x2000`; above that, separator and
format-control characters are rejected and the rest accepted. -/
def pyIsPrintable (c : Char) : Bool :=
  let n := c.toNat
  if n < 32 then false
  else if n ≤ 126 then true
  else if n ≤ 160 then false
  else if n = 173 then false
  else if isPySpace c then false
  else if 0x200b ≤ n && n ≤ 0x200f then false
  else if 0x202a ≤ n && n ≤ 0x202e then false
  else if n = 0x2060 || n = 0xfeff then false
  else true

/-- ASCII fragment of Python `str.lower` (the repository's queries and
fixtures are ASCII). `Char.toLower` lowers exactly the ASCII uppercase
letters. -/
def pyLower (s : String) : String := ⟨s.data.map Char.toLower⟩

/-- Python `str.strip` on a character list. -/
def pyStripList (l : List Char) : List Char :=
  ((l.dropWhile isPySpace).reverse.dropWhile isPySpace).reverse

/-- Python `str.strip` on strings. -/
def pyStrip (s : String) : String := ⟨pyStripList s.data⟩

/-- Characters matched by Python's regex class `\w` (ASCII fragment). -/
def isWordChar (c : Char) : Bool := c.isAlphanum || c = '_'

/-- Maximal runs of word characters, i.e. Python `re.findall(r"\w+", s)`.
The first argument is the run currently being collected (reversed). -/
def wordRunsGo : List Char → List Char → List (List Char)
  | [], acc => if acc.isEmpty then [] else [acc.reverse]
  | c :: cs, acc =>
    if isWordChar c then wordRunsGo cs (c :: acc)
    else if acc.isEmpty then wordRunsGo cs []
    else acc.reverse :: wordRunsGo cs []

/-- The word tokens of `s.lower()`, in order of occurrence:
`re.findall(r"\w+", s.lower())`. -/
def tokensList (s : String) : List String :=
  (wordRunsGo (pyLower s).data []).map (fun l => ⟨l⟩)

/-- The set of word tokens of `s.lower()` — Python `set(re.findall(...))`. -/
def tokenSet (s : String) : Finset String := (tokensList s).toFinset

/-- `token_score` (Livrando.py:454-464): Jaccard similarity of the
lower-cased word-token sets, 0 when either string or token set is empty.
The Python float arithmetic is modelled in ℚ. -/
def token_score (a b : String) : ℚ :=
  if a = "" ∨ b = "" then 0
  else
    let ta := tokenSet a
    let tb := tokenSet b
    if ta = ∅ ∨ tb = ∅ then 0
    else ((ta ∩ tb).card : ℚ) / (max 1 (ta ∪ tb).card : ℚ)

/-! ## ISBN validation (`is_valid_isbn`, Livrando.py:1053-1098) -/

/-- The preprocessing `re.sub(r'[^\dX]', '', str(isbn))` (followed by a
no-op `.upper()`, since only digits and an uppercase `X` survive the
substitution). -/
def stripNonIsbn (l : List Char) : List Char :=
  l.filter (fun c => c.isDigit || c = 'X')

/-- Numeric value of a digit character. -/
def digitVal (c : Char) : Nat := c.toNat - 48

/-- The single-character string Python's `str(check)` produces for
`check` in `0..9`. -/
def digitChar (n : Nat) : Char := Char.ofNat (48 + n)

/-- `isbn.startswith('0000000')` on a character list. -/
def sevenZeros : List Char := ['0', '0', '0', '0', '0', '0', '0']

/-- `len(set(isbn)) == 1`: the string is non-empty and all its characters
are equal. -/
def allSameChar (l : List Char) : Bool := l.dedup.length == 1

/-- The ISBN-10 arm of `is_valid_isbn`: the loop
`for i in range(9): ... total += int(isbn[i]) * (10 - i)` requires the
first nine characters to be digits and forms their weighted sum; the
check character contributes 10 for `X`, its value for a digit, and fails
otherwise; valid iff `(total + check) % 11 == 0`. -/
def isbn10Arm (l : List Char) : Bool :=
  if (List.range 9).all (fun i => (l.getD i ' ').isDigit) then
    let total := ((List.range 9).map (fun i => digitVal (l.getD i ' ') * (10 - i))).sum
    let c9 := l.getD 9 ' '
    if c9 = 'X' then (total + 10) % 11 == 0
    else if c9.isDigit then (total + digitVal c9) % 11 == 0
    else false
  else false

/-- The ISBN-13 arm of `is_valid_isbn`: requires a `978`/`979` prefix and
digits in the first twelve positions, forms the alternating 1,3-weighted
sum, computes `check = 10 - total % 10` (with 10 mapped to 0) and compares
`isbn[12] == str(check)`. -/
def isbn13Arm (l : List Char) : Bool :=
  if ['9', '7', '8'].isPrefixOf l || ['9', '7', '9'].isPrefixOf l then
    if (List.range 12).all (fun i => (l.getD i ' ').isDigit) then
      let total := ((List.range 12).map
        (fun i => digitVal (l.getD i ' ') * (if i % 2 == 0 then 1 else 3))).sum
      let check := if 10 - total % 10 = 10 then 0 else 10 - total % 10
      l.getD 12 ' ' == digitChar check
    else false
  else false

/-- `is_valid_isbn` (Livrando.py:1053-1098): strip non-`[0-9X]` characters,
reject the placeholder denylist (a seven-zero prefix, the all-zero
constants, or all characters identical), then dispatch on length 10/13. -/
def is_valid_isbn (s : String) : Bool :=
  let isbn := stripNonIsbn s.data
  if sevenZeros.isPrefixOf isbn ∨ isbn = "0000000000".data ∨
      isbn = "0000000000000".data ∨ allSameChar isbn then false
  else if isbn.length = 10 then isbn10Arm isbn
  else if isbn.length = 13 then isbn13Arm isbn
  else false

/-- Domain of claim C3's first sentence: ten characters, the first nine
digits, the last a digit or `X`. -/
def isbn10Candidate (s : String) : Prop :=
  s.length = 10 ∧ (∀ i < 9, (s.data.getD i ' ').isDigit) ∧
    ((s.data.getD 9 ' ').isDigit ∨ s.data.getD 9 ' ' = 'X')

/-- Domain of claim C3's second sentence: thirteen digit characters. -/
def isbn13Candidate (s : String) : Prop :=
  s.length = 13 ∧ ∀ c ∈ s.data, c.isDigit

instance (s : String) : Decidable (isbn10Candidate s) := by
  unfold isbn10Candidate; infer_instance

instance (s : String) : Decidable (isbn13Candidate s) := by
  unfold isbn13Candidate; infer_instance

/-- Checksum condition of claim C3 for ISBN-10, in the spec's words: the
weighted sum of the first nine digits with descending weights 10..2, plus
the check digit (10 for `X`), is divisible by 11. -/
def spec_isbn10_checksum (s : String) : Bool :=
  let total := ((List.range 9).map (fun i => digitVal (s.data.getD i ' ') * (10 - i))).sum
  let check := if s.data.getD 9 ' ' = 'X' then 10 else digitVal (s.data.getD 9 ' ')
  (total + check) % 11 == 0

/-- Validity condition of claim C3 for ISBN-13, in the spec's words: a
`978`/`979` prefix, and `(10 - (alternating 1,3-weighted sum of the first
twelve digits mod 10)) mod 10` equal to the thirteenth digit. -/
def spec_isbn13_ok (s : String) : Bool :=
  (['9', '7', '8'].isPrefixOf s.data || ['9', '7', '9'].isPrefixOf s.data) &&
    (let total := ((List.range 12).map
        (fun i => digitVal (s.data.getD i ' ') * (if i % 2 == 0 then 1 else 3))).sum
     s.data.getD 12 ' ' == digitChar ((10 - total % 10) % 10))

/-- The candidate filter of `extract_isbn_from_pdf_smart`
(Livrando.py:971-978): length 10 or 13, `is_valid_isbn`, no
`0000`/`1111`/`1234`/`9999` prefix, more than four distinct characters,
and a contextual keyword nearby (abstracted as a boolean). -/
def pdf_smart_accepts (contextOk : Bool) (cand : String) : Bool :=
  ((cand.length == 10 || cand.length == 13) &&
   is_valid_isbn cand &&
   !(['0','0','0','0'].isPrefixOf cand.data || ['1','1','1','1'].isPrefixOf cand.data ||
     ['1','2','3','4'].isPrefixOf cand.data || ['9','9','9','9'].isPrefixOf cand.data) &&
   cand.data.dedup.length > 4) && contextOk

/-- The candidate filter of `extract_isbn_generic` (Livrando.py:1009-1011):
length 10 or 13, `is_valid_isbn`, no `0000`/`1111`/`1234` prefix. -/
def generic_accepts (cand : String) : Bool :=
  (cand.length == 10 || cand.length == 13) &&
  is_valid_isbn cand &&
  !(['0','0','0','0'].isPrefixOf cand.data || ['1','1','1','1'].isPrefixOf cand.data ||
    ['1','2','3','4'].isPrefixOf cand.data)

/-! ## Metadata validation (`validate_metadata`, Livrando.py:1416-1448) -/

/-- Python substring membership `needle in hay` on character lists. -/
def containsSub : List Char → List Char → Bool
  | needle, [] => needle.isEmpty
  | needle, c :: t => needle.isPrefixOf (c :: t) || containsSub needle t

/-- Python substring membership on strings: `needle in hay`. -/
def strContains (hay needle : String) : Bool := containsSub needle.data hay.data

/-- A Python dict value as inspected by `validate_metadata`: absent (or
`None`), present but not a string, or a string. -/
inductive PyField where
  | absent
  | nonstr
  | str (s : String)
deriving DecidableEq

/-- The fields of a candidate-metadata dict that `validate_metadata`
inspects: `title`, and the `authors` list (absent modelled as `[]`). -/
structure MetaDict where
  title : PyField
  authors : List PyField
deriving DecidableEq

/-- The title denylist `invalid_titles` (Livrando.py:1439). -/
def invalid_titles : List String :=
  ["unknown", "untitled", "document", "file", "microsoft", "word"]

/-- The author denylist `invalid_authors` (Livrando.py:1440). -/
def invalid_authors : List String :=
  ["unknown", "anonymous", "author", "user", "admin", "system", "t_ms02"]

/-- `validate_metadata` (Livrando.py:1416-1448). The unused `fonte`
argument is dropped. Rejects a missing/non-string/short title, an empty
authors list, a missing/non-string/short first author, a title containing
a token of `invalid_titles`, or a first author containing a token of
`invalid_authors` (both case-insensitive substring checks). -/
def validate_metadata (m : MetaDict) : Bool :=
  match m.title with
  | .str t =>
    if (pyStrip t).length < 2 then false
    else
      match m.authors with
      | [] => false
      | a0 :: _ =>
        match a0 with
        | .str a =>
          if (pyStrip a).length < 2 then false
          else if invalid_titles.any (fun w => strContains (pyLower t) w) then false
          else if invalid_authors.any (fun w => strContains (pyLower a) w) then false
          else true
        | _ => false
  | _ => false

/-- Claim C5's validation rule as amended: the title is checked only
against the title denylist and the first author only against the author
denylist, next to the structural checks. -/
def validate_metadata_spec (m : MetaDict) : Bool :=
  match m.title, m.authors with
  | .str t, .str a :: _ =>
    (2 ≤ (pyStrip t).length) &&
    (2 ≤ (pyStrip a).length) &&
    !(invalid_titles.any (fun w => strContains (pyLower t) w)) &&
    !(invalid_authors.any (fun w => strContains (pyLower a) w))
  | _, _ => false

/-! ## Source Matcher text-query scoring
(`buscar_google_books` Livrando.py:1574-1640, `buscar_open_library`
Livrando.py:1661-1712) -/

/-- One provider search result as the scoring loops consume it: for Google
Books the `volumeInfo` fields `title`/`authors`/`publishedDate`/
`categories`, for Open Library the doc fields `title`/`author_name`/
`first_publish_year` (already string-converted)/`subject`. Absent `title`
is `none` (`.get("title")`), the list fields default to `[]`. -/
structure SearchDoc where
  title : Option String
  authors : List String
  publishedDate : Option String
  categories : List String
deriving DecidableEq

/-- Python `max(list or [0])`: maximum of the list, 0 when it is empty. -/
def pyMaxD : List ℚ → ℚ
  | [] => 0
  | x :: xs => xs.foldl max x

/-- The per-result score computed inside both provider loops
(Livrando.py:1604-1611 and 1684-1691): `0.7 * token_score` on the title
(the result title is pre-lowered by `.lower()`), plus `0.3 * max` of
`token_score` over the result authors; each addend only when the query
part and the result part are non-empty (Python truthiness; a `None` query
author is conflated with `""`, both are falsy). -/
def text_query_score (titulo autor : String) (d : SearchDoc) : ℚ :=
  (if titulo ≠ "" ∧ pyLower (d.title.getD "") ≠ "" then
      token_score (pyLower titulo) (pyLower (d.title.getD "")) * (7/10)
    else 0) +
  (if autor ≠ "" ∧ d.authors ≠ [] then
      pyMaxD (d.authors.map (fun a => token_score (pyLower autor) (pyLower a))) * (3/10)
    else 0)

/-- The score in the words of claim C6:
`0.7 * tokenOverlap(queryTitle, resultTitle) + 0.3 * max over result
authors of tokenOverlap(queryAuthor, author)` (maximum of an empty list
read as 0, and `tokenOverlap` 0 when either side has no usable term). -/
def scoreC6 (titulo autor : String) (d : SearchDoc) : ℚ :=
  7/10 * token_score titulo (d.title.getD "") +
  3/10 * pyMaxD (d.authors.map (fun a => token_score autor a))

/-- One step of the best-result loop: `if score > best_score: update`. -/
def bestStep {α : Type} (f : α → ℚ) (acc : Option α × ℚ) (x : α) : Option α × ℚ :=
  if f x > acc.2 then (some x, f x) else acc

/-- The whole best-result loop, starting from `best_item = None`,
`best_score = 0`. -/
def bestLoop {α : Type} (f : α → ℚ) (l : List α) : Option α × ℚ :=
  l.foldl (bestStep f) (none, 0)

/-- Python `re.search(r'(\d{4})', s)`: the first run of four consecutive
digit characters, if any. -/
def firstYearList : List Char → Option (List Char)
  | [] => none
  | c :: t =>
    if ((c :: t).take 4).length == 4 && ((c :: t).take 4).all Char.isDigit then
      some ((c :: t).take 4)
    else firstYearList t

/-- Year extraction from a date string, as done at the provider return
sites. -/
def firstYear (s : String) : Option String := (firstYearList s.data).map List.asString

/-- The metadata dict returned by the Source Matcher functions, with the
flags the Resolution Cascade later sets (`isbn`, `isbn_found`,
`api_found`, `filename_found`; all initially unset). -/
structure ApiMeta where
  title : Option String
  authors : List String
  publishedDate : Option String
  categories : List String
  fonte : String
  score : ℚ
  isbn : Option String
  isbn_found : Bool
  api_found : Bool
  filename_found : Bool
deriving DecidableEq

/-- A freshly built result dict (no cascade flags set). -/
def baseMeta (title : Option String) (authors : List String)
    (publishedDate : Option String) (categories : List String)
    (fonte : String) (score : ℚ) : ApiMeta :=
  ⟨title, authors, publishedDate, categories, fonte, score, none, false, false, false⟩

/-- The dict built at Livrando.py:1628-1636 from the best Google Books
item (`imageLinks` is outside this model). -/
def gbBuild (d : SearchDoc) (score : ℚ) : ApiMeta :=
  baseMeta d.title d.authors
    (if d.publishedDate.getD "" = "" then none else firstYear (d.publishedDate.getD ""))
    d.categories "Google Books" score

/-- The dict built at Livrando.py:1698-1708 from the best Open Library
doc: `publishedDate` is `str(first_publish_year)` when present, and only
the first three subjects are kept. -/
def olBuild (d : SearchDoc) (score : ℚ) : ApiMeta :=
  baseMeta d.title d.authors d.publishedDate (d.categories.take 3) "Open Library" score

/-- `buscar_google_books` (Livrando.py:1574-1640) with the HTTP layer
abstracted: `none` for the response stands for a network failure, a
non-200 status, or a missing/empty `items` list; `some docs` for the
parsed items. The query-construction guard (lines 1578-1586) returns
`None` when both query parts are unusable. -/
def buscar_google_books_core (titulo autor : String)
    (response : Option (List SearchDoc)) : Option ApiMeta :=
  if titulo = "" ∧ (autor = "" ∨ autor = "Autor Desconhecido") then none
  else
    match response with
    | none => none
    | some docs =>
      match bestLoop (text_query_score titulo autor) docs with
      | (some best, s) => if s > 3/10 then some (gbBuild best s) else none
      | (none, _) => none

/-- Test vector for the provider loops: a result that shares no token
with the query. -/
def c6bad : SearchDoc := ⟨some "x", [], none, []⟩

/-- Test vector for the provider loops: a result matching the query
exactly. -/
def c6good : SearchDoc := ⟨some "dom casmurro", ["machado"], none, []⟩

/-- `buscar_open_library` (Livrando.py:1661-1712) with the HTTP layer
abstracted analogously; its guard (line 1664) only rejects two empty
query parts. -/
def buscar_open_library_core (titulo autor : String)
    (response : Option (List SearchDoc)) : Option ApiMeta :=
  if titulo = "" ∧ autor = "" then none
  else
    match response with
    | none => none
    | some docs =>
      match bestLoop (text_query_score titulo autor) docs with
      | (some best, s) => if s > 3/10 then some (olBuild best s) else none
      | (none, _) => none

/-! ## Regex-substitution scanners

Each Python `re.sub(pattern, repl, text)` call of the junk-stripping
normalizers is embedded as a left-to-right scanner with the same match
semantics (leftmost match, scanning resumes after the replaced span,
lookarounds read the original string). -/

/-- Case-insensitive character equality (`re.IGNORECASE`, ASCII). -/
def eqCI (a b : Char) : Bool := a.toLower == b.toLower

/-- Case-insensitive prefix test: does the second list start with the
first? -/
def isPrefixCI : List Char → List Char → Bool
  | [], _ => true
  | _ :: _, [] => false
  | a :: as, b :: bs => eqCI a b && isPrefixCI as bs

/-- Case-insensitive substring test. -/
def containsCI (needle : List Char) : List Char → Bool
  | [] => needle.isEmpty
  | c :: t => isPrefixCI needle (c :: t) || containsCI needle t

/-- Scanner for `re.sub(literal, '', text, flags=re.IGNORECASE)` with a
non-empty literal. The `Nat` is recursion fuel; every step consumes at
least one character, so `l.length` fuel (supplied by the wrapper) never
runs out and the fuel-exhausted branch is unreachable. -/
def removeAllCIgo (n0 : Char) (nt : List Char) : Nat → List Char → List Char
  | _, [] => []
  | 0, l => l
  | fuel + 1, c :: rest =>
    if isPrefixCI (n0 :: nt) (c :: rest) then
      removeAllCIgo n0 nt fuel (rest.drop nt.length)
    else c :: removeAllCIgo n0 nt fuel rest

/-- `re.sub(literal, '', text, flags=re.IGNORECASE)` for a literal
pattern. -/
def removeAllCI (needle hay : List Char) : List Char :=
  match needle with
  | [] => hay
  | n0 :: nt => removeAllCIgo n0 nt hay.length hay

/-- `re.sub(r'\[\d+\]', '', text)`: bracketed digit runs (fueled
scanner). -/
def removeBracketNumGo : Nat → List Char → List Char
  | _, [] => []
  | 0, l => l
  | fuel + 1, c :: rest =>
    if c = '[' then
      let ds := rest.takeWhile Char.isDigit
      if ds ≠ [] ∧ (rest.drop ds.length).headD ' ' = ']' ∧ rest.drop ds.length ≠ [] then
        removeBracketNumGo fuel (rest.drop (ds.length + 1))
      else c :: removeBracketNumGo fuel rest
    else c :: removeBracketNumGo fuel rest

/-- `re.sub(r'\[\d+\]', '', text)`. -/
def removeBracketNum (l : List Char) : List Char := removeBracketNumGo l.length l

/-- `re.sub(r'\[.*?\]', '', text)` (also used for `\(...\)` with other
delimiters): lazy bracket spans; `.` does not match a newline. -/
def removeDelimLazyGo (opn cls : Char) : Nat → List Char → List Char
  | _, [] => []
  | 0, l => l
  | fuel + 1, c :: rest =>
    if c = opn then
      let seg := rest.takeWhile (fun x => x ≠ cls ∧ x ≠ '\n')
      if (rest.drop seg.length).headD ' ' = cls ∧ rest.drop seg.length ≠ [] then
        removeDelimLazyGo opn cls fuel (rest.drop (seg.length + 1))
      else c :: removeDelimLazyGo opn cls fuel rest
    else c :: removeDelimLazyGo opn cls fuel rest

/-- Wrapper for `removeDelimLazyGo` supplying the length as fuel. -/
def removeDelimLazy (opn cls : Char) (l : List Char) : List Char :=
  removeDelimLazyGo opn cls l.length l

/-- `re.sub(r'\d+p', '', text, flags=re.IGNORECASE)`: a maximal digit run
immediately followed by `p` (no shorter run can match, since backtracking
would place a digit where `p` is required). -/
def removeDigitsPGo : Nat → List Char → List Char
  | _, [] => []
  | 0, l => l
  | fuel + 1, c :: rest =>
    if c.isDigit then
      let ds := rest.takeWhile Char.isDigit
      let after := rest.drop ds.length
      if eqCI (after.headD ' ') 'p' ∧ after ≠ [] then
        removeDigitsPGo fuel (after.drop 1)
      else (c :: ds) ++ removeDigitsPGo fuel after
    else c :: removeDigitsPGo fuel rest

/-- Wrapper for `removeDigitsPGo` supplying the length as fuel. -/
def removeDigitsP (l : List Char) : List Char := removeDigitsPGo l.length l

/-- `re.sub(r'\bmicrosoft\s+word\b', '', text, flags=re.IGNORECASE)`.
`prev` is the original character before the scan position (for the word
boundary). -/
def removeMicrosoftWordGo : Option Char → Nat → List Char → List Char
  | _, _, [] => []
  | _, 0, l => l
  | prev, fuel + 1, c :: rest =>
    if ((match prev with | none => true | some p => !isWordChar p)
        && isPrefixCI "microsoft".data (c :: rest)) = true then
      let after9 := (c :: rest).drop 9
      let sp := after9.takeWhile isPySpace
      let after2 := after9.drop sp.length
      if ((!sp.isEmpty) && isPrefixCI "word".data after2 &&
          (match after2.drop 4 with | [] => true | d :: _ => !isWordChar d)) = true then
        removeMicrosoftWordGo (some 'd') fuel (after2.drop 4)
      else c :: removeMicrosoftWordGo (some c) fuel rest
    else c :: removeMicrosoftWordGo (some c) fuel rest

/-- Wrapper for `removeMicrosoftWordGo` supplying the length as fuel. -/
def removeMicrosoftWord (prev : Option Char) (l : List Char) : List Char :=
  removeMicrosoftWordGo prev l.length l

/-- `re.sub(r'\b\w*SUB\w*\b', '', text, flags=re.IGNORECASE)`: removes
every maximal word-character run containing `sub` (interior positions
carry no word boundary, so only whole runs can match). -/
def removeWordRunsContainingGo (sub : List Char) : Nat → List Char → List Char
  | _, [] => []
  | 0, l => l
  | fuel + 1, c :: rest =>
    if isWordChar c then
      let ds := rest.takeWhile isWordChar
      let after := rest.drop ds.length
      if containsCI sub (c :: ds) then removeWordRunsContainingGo sub fuel after
      else (c :: ds) ++ removeWordRunsContainingGo sub fuel after
    else c :: removeWordRunsContainingGo sub fuel rest

/-- Wrapper for `removeWordRunsContainingGo` supplying the length as fuel. -/
def removeWordRunsContaining (sub l : List Char) : List Char :=
  removeWordRunsContainingGo sub l.length l

/-- `re.sub(r'\b\d+X\b', '', text, flags=re.IGNORECASE)` for a letter `X`:
removes word runs consisting of one or more digits followed by exactly
that letter. -/
def removeDigitLetterRunsGo (letter : Char) : Nat → List Char → List Char
  | _, [] => []
  | 0, l => l
  | fuel + 1, c :: rest =>
    if isWordChar c then
      let ds := rest.takeWhile isWordChar
      let after := rest.drop ds.length
      let run := c :: ds
      if run.length ≥ 2 ∧ run.dropLast.all Char.isDigit ∧ eqCI (run.getLastD ' ') letter then
        removeDigitLetterRunsGo letter fuel after
      else run ++ removeDigitLetterRunsGo letter fuel after
    else c :: removeDigitLetterRunsGo letter fuel rest

/-- Wrapper for `removeDigitLetterRunsGo` supplying the length as fuel. -/
def removeDigitLetterRuns (letter : Char) (l : List Char) : List Char :=
  removeDigitLetterRunsGo letter l.length l

/-- `re.sub(r'(?<!\b[A-Z])\.(?![A-Z]\b)', ' ', text)`: a dot becomes a
space unless preceded or followed by a one-letter uppercase word
(preserving abbreviations like `J. K.`); lookarounds read the original
string, carried as `p2`, `p1`. -/
def dotLookaround (p2 p1 : Option Char) : List Char → List Char
  | [] => []
  | c :: rest =>
    if c = '.' then
      let keepBehind : Bool :=
        match p1 with
        | some u => u.isUpper && (match p2 with | some q => !isWordChar q | none => true)
        | none => false
      let keepAhead : Bool :=
        match rest with
        | u :: rest2 =>
          u.isUpper && (match rest2 with | q :: _ => !isWordChar q | [] => true)
        | [] => false
      (if (keepBehind || keepAhead) = true then c else ' ') :: dotLookaround p1 (some c) rest
    else c :: dotLookaround p1 (some c) rest

/-- `re.sub(r'(?<=\w)-(?=\w)', ' ', text)`: a hyphen glued between word
characters becomes a space. -/
def dashBetweenWords : Option Char → List Char → List Char
  | _, [] => []
  | prev, c :: rest =>
    if ((c == '-') && (match prev with | some p => isWordChar p | none => false)
        && (match rest with | n :: _ => isWordChar n | [] => false)) = true then
      ' ' :: dashBetweenWords (some c) rest
    else c :: dashBetweenWords (some c) rest

/-- `re.sub(r'^\s*-+\s*', '', text)`: leading hyphens with surrounding
whitespace (only when at least one hyphen is present). -/
def trimLeadDashes (l : List Char) : List Char :=
  let a := l.dropWhile isPySpace
  match a with
  | '-' :: _ => (a.dropWhile (fun c => c = '-')).dropWhile isPySpace
  | _ => l

/-- `re.sub(r'\s*-+\s*$', '', text)`: trailing hyphens with surrounding
whitespace. -/
def trimTrailDashes (l : List Char) : List Char :=
  let a := l.reverse.dropWhile isPySpace
  match a with
  | '-' :: _ => ((a.dropWhile (fun c => c = '-')).dropWhile isPySpace).reverse
  | _ => l

/-- `re.sub(r'\s\d+\s', ' ', text)`: a whitespace-delimited digit run
collapses to one space; scanning resumes after the consumed trailing
whitespace. -/
def removeIsolatedNumsGo : Nat → List Char → List Char
  | _, [] => []
  | 0, l => l
  | fuel + 1, c :: rest =>
    if isPySpace c then
      let ds := rest.takeWhile Char.isDigit
      let after := rest.drop ds.length
      if ds ≠ [] ∧ after ≠ [] ∧ isPySpace (after.headD 'x') then
        ' ' :: removeIsolatedNumsGo fuel (after.drop 1)
      else c :: removeIsolatedNumsGo fuel rest
    else c :: removeIsolatedNumsGo fuel rest

/-- Wrapper for `removeIsolatedNumsGo` supplying the length as fuel. -/
def removeIsolatedNums (l : List Char) : List Char := removeIsolatedNumsGo l.length l

/-- `re.sub(r'^\d+\s', '', text)`. -/
def removeLeadNumSpace (l : List Char) : List Char :=
  let ds := l.takeWhile Char.isDigit
  let after := l.drop ds.length
  if ds ≠ [] ∧ after ≠ [] ∧ isPySpace (after.headD 'x') then after.drop 1 else l

/-- `re.sub(r'\s\d+$', '', text)`. -/
def removeTrailNumSpace (l : List Char) : List Char :=
  let r := l.reverse
  let ds := r.takeWhile Char.isDigit
  let after := r.drop ds.length
  if ds ≠ [] ∧ after ≠ [] ∧ isPySpace (after.headD 'x') then (after.drop 1).reverse else l

/-- `re.sub(r'[+_]{2,}', ' ', text)`: runs of two or more `+`/`_` become a
single space; single occurrences stay. -/
def collapsePlusUnderscoreGo : Nat → List Char → List Char
  | _, [] => []
  | 0, l => l
  | fuel + 1, c :: rest =>
    if c = '+' ∨ c = '_' then
      let ds := rest.takeWhile (fun x => x = '+' || x = '_')
      if ds = [] then c :: collapsePlusUnderscoreGo fuel rest
      else ' ' :: collapsePlusUnderscoreGo fuel (rest.drop ds.length)
    else c :: collapsePlusUnderscoreGo fuel rest

/-- Wrapper for `collapsePlusUnderscoreGo` supplying the length as fuel. -/
def collapsePlusUnderscore (l : List Char) : List Char :=
  collapsePlusUnderscoreGo l.length l

/-- `re.sub(r'\.{2,}', ' ', text)`: runs of two or more dots become a
single space. -/
def collapseDotRunsGo : Nat → List Char → List Char
  | _, [] => []
  | 0, l => l
  | fuel + 1, c :: rest =>
    if c = '.' then
      let ds := rest.takeWhile (fun x => x = '.')
      if ds = [] then c :: collapseDotRunsGo fuel rest
      else ' ' :: collapseDotRunsGo fuel (rest.drop ds.length)
    else c :: collapseDotRunsGo fuel rest

/-- Wrapper for `collapseDotRunsGo` supplying the length as fuel. -/
def collapseDotRuns (l : List Char) : List Char := collapseDotRunsGo l.length l

/-- The extension alternation of `re.sub(r'\.(pdf|epub|mobi|azw3|docx?|txt|zip|rar)$', ...)`. -/
def extAlts : List String := ["pdf", "epub", "mobi", "azw3", "docx", "doc", "txt", "zip", "rar"]

/-- Case-insensitive suffix test. -/
def endsWithCI (suffix l : List Char) : Bool := isPrefixCI suffix.reverse l.reverse

/-- The end-anchored extension removal (at most one match). -/
def removeExtAtEnd (l : List Char) : List Char :=
  match extAlts.find? (fun e => endsWithCI ('.' :: e.data) l) with
  | some e => l.take (l.length - (e.data.length + 1))
  | none => l

/-- `re.sub(r'www\.\w+\.com', '', text, flags=re.IGNORECASE)`. -/
def removeWwwComGo : Nat → List Char → List Char
  | _, [] => []
  | 0, l => l
  | fuel + 1, c :: rest =>
    if isPrefixCI "www.".data (c :: rest) then
      let after4 := (c :: rest).drop 4
      let ws := after4.takeWhile isWordChar
      let after5 := after4.drop ws.length
      if ws ≠ [] ∧ isPrefixCI ".com".data after5 then
        removeWwwComGo fuel (after5.drop 4)
      else c :: removeWwwComGo fuel rest
    else c :: removeWwwComGo fuel rest

/-- Wrapper for `removeWwwComGo` supplying the length as fuel. -/
def removeWwwCom (l : List Char) : List Char := removeWwwComGo l.length l

/-- `re.sub(r'http[s]?://', '', text, flags=re.IGNORECASE)`. -/
def removeHttpGo : Nat → List Char → List Char
  | _, [] => []
  | 0, l => l
  | fuel + 1, c :: rest =>
    if isPrefixCI "https://".data (c :: rest) then removeHttpGo fuel (rest.drop 7)
    else if isPrefixCI "http://".data (c :: rest) then removeHttpGo fuel (rest.drop 6)
    else c :: removeHttpGo fuel rest

/-- Wrapper for `removeHttpGo` supplying the length as fuel. -/
def removeHttp (l : List Char) : List Char := removeHttpGo l.length l

/-- `re.sub(r'novo\s*(?:ALT|...)', '', text, flags=re.IGNORECASE)` for a
four-letter head literal and simple alternatives, tried in order. -/
def removeNovoAltsGo (alts : List (List Char)) : Nat → List Char → List Char
  | _, [] => []
  | 0, l => l
  | fuel + 1, c :: rest =>
    if isPrefixCI "novo".data (c :: rest) then
      let r1 := (c :: rest).drop 4
      let sp := r1.takeWhile isPySpace
      let r2 := r1.drop sp.length
      match alts.find? (fun a => isPrefixCI a r2) with
      | some a => removeNovoAltsGo alts fuel (r2.drop a.length)
      | none => c :: removeNovoAltsGo alts fuel rest
    else c :: removeNovoAltsGo alts fuel rest

/-- Wrapper for `removeNovoAltsGo` supplying the length as fuel. -/
def removeNovoAlts (alts : List (List Char)) (l : List Char) : List Char :=
  removeNovoAltsGo alts l.length l

/-- `re.sub(r'documento\s*(?:de\s*texto|sem\s*título)', '', text,
flags=re.IGNORECASE)`, alternatives tried in order. -/
def removeDocumentoPatGo : Nat → List Char → List Char
  | _, [] => []
  | 0, l => l
  | fuel + 1, c :: rest =>
    if isPrefixCI "documento".data (c :: rest) then
      let r2 := ((c :: rest).drop 9).drop (((c :: rest).drop 9).takeWhile isPySpace).length
      if isPrefixCI "de".data r2 ∧
          isPrefixCI "texto".data ((r2.drop 2).drop ((r2.drop 2).takeWhile isPySpace).length) then
        removeDocumentoPatGo fuel (((r2.drop 2).drop ((r2.drop 2).takeWhile isPySpace).length).drop 5)
      else if isPrefixCI "sem".data r2 ∧
          isPrefixCI "título".data ((r2.drop 3).drop ((r2.drop 3).takeWhile isPySpace).length) then
        removeDocumentoPatGo fuel (((r2.drop 3).drop ((r2.drop 3).takeWhile isPySpace).length).drop 6)
      else c :: removeDocumentoPatGo fuel rest
    else c :: removeDocumentoPatGo fuel rest

/-- Wrapper for `removeDocumentoPatGo` supplying the length as fuel. -/
def removeDocumentoPat (l : List Char) : List Char := removeDocumentoPatGo l.length l

/-! ## Text normalizers (`sanitize_filename` Livrando.py:437-445,
`clean_search_query_nome_arquivo` Livrando.py:819-907) -/

/-- `re.sub(r"\s+", " ", s)`: collapse whitespace runs to one space. The
boolean records whether the previous character was whitespace. -/
def collapseWsAux : Bool → List Char → List Char
  | _, [] => []
  | prevWs, c :: rest =>
    if isPySpace c then
      if prevWs then collapseWsAux true rest
      else ' ' :: collapseWsAux true rest
    else c :: collapseWsAux false rest

/-- `normalize_spaces` (Livrando.py:433-435): collapse whitespace runs and
strip. -/
def normalizeSpacesList (l : List Char) : List Char :=
  pyStripList (collapseWsAux false l)

/-- The characters `str.maketrans` maps to `-` in `sanitize_filename`. -/
def invalidFsChars : List Char := "<>:\"/\\|?*\n\r\t".data

/-- The translation table of `sanitize_filename`. -/
def sanitizeTranslate (c : Char) : Char := if c ∈ invalidFsChars then '-' else c

/-- The accented-letter allowlist kept by `sanitize_filename`'s printable
filter. -/
def accentAllowlist : List Char :=
  "áéíóúàèìòùâêîôûãõäëïöüçÁÉÍÓÚÀÈÌÒÙÂÊÎÔÛãõÄËÏÖÜÇ".data

/-- Hyphen or underscore. -/
def isDashU (c : Char) : Bool := c == '-' || c == '_'

/-- `re.sub(r"[-_]{2,}", "-", name)`: runs of two or more hyphens or
underscores become one hyphen; single occurrences stay. -/
def collapseDashRuns : List Char → List Char
  | [] => []
  | c :: rest =>
    if isDashU c then
      let ds := rest.takeWhile isDashU
      if ds = [] then c :: collapseDashRuns rest
      else '-' :: collapseDashRuns (rest.drop ds.length)
    else c :: collapseDashRuns rest
termination_by l => l.length
decreasing_by
  all_goals simp only [List.length_drop, List.length_cons]
  all_goals omega

/-- Python `str.rstrip('. ')`. -/
def pyRstripDotSpace (l : List Char) : List Char :=
  (l.reverse.dropWhile (fun c => c == '.' || c == ' ')).reverse

/-- `sanitize_filename` (Livrando.py:437-445): normalize spaces, map
filesystem-invalid characters to hyphens, keep only printable characters
(plus the accent allowlist), collapse hyphen/underscore runs, truncate,
and strip trailing dots/spaces. -/
def sanitize_filename (maxLen : Nat) (s : String) : String :=
  let t := normalizeSpacesList s.data
  let t := t.map sanitizeTranslate
  let t := t.filter (fun c => pyIsPrintable c || c ∈ accentAllowlist)
  let t := collapseDashRuns t
  String.mk (pyRstripDotSpace (t.take maxLen))

/-- `re.sub(r'[   ]', ' ', text)`. -/
def invisibleToSpace (c : Char) : Char :=
  if c = ' ' ∨ c = ' ' ∨ c = ' ' then ' ' else c

/-- `re.sub(r'[‒–—−⁃﹣－]', '-', text)`. -/
def unicodeDashToHyphen (c : Char) : Char :=
  if c = '‒' ∨ c = '–' ∨ c = '—' ∨ c = '−' ∨ c = '⁃' ∨ c = '﹣' ∨ c = '－' then '-' else c

/-- `re.sub(r'[+_]', ' ', text)`. -/
def plusUnderscoreToSpace (c : Char) : Char :=
  if c = '+' ∨ c = '_' then ' ' else c

/-- The `junk_patterns` loop of `clean_search_query_nome_arquivo`
(Livrando.py:828-841), pattern by pattern in source order. Two list
entries are accidental Python string concatenations that can never match
and are modelled as the identity: `\(pdfcofee\), r\blivro\s+de\b` (line
830) and `\.org\b\w*download\w*\b` (lines 836-837) both require a word
boundary between two word characters. -/
def junkChain (l0 : List Char) : List Char :=
  let l := removeAllCI "(z-library)".data l0
  let l := removeAllCI "(z-lib)".data l
  let l := removeAllCI "(libgen)".data l
  let l := removeAllCI "(pdf)".data l
  let l := removeAllCI "(epub)".data l
  let l := removeMicrosoftWord none l
  let l := removeDelimLazy '[' ']' l
  let l := removeDelimLazy '(' ')' l
  let l := removeDigitsP l
  let l := removeExtAtEnd l
  let l := removeWwwCom l
  let l := removeAllCI ".com".data l
  let l := removeAllCI ".org".data l
  let l := removeAllCI ".net".data l
  let l := removeHttp l
  let l := removeAllCI "[1]".data l
  let l := removeAllCI "...".data l
  let l := removeWordRunsContaining "libgen".data l
  let l := removeWordRunsContaining "zlib".data l
  let l := removeDigitLetterRuns 'p' l
  let l := removeDigitLetterRuns 'k' l
  let l := removeBracketNum l
  let l := removeAllCI "reidoebook".data l
  let l := removeAllCI "livrosparatodos".data l
  let l := removeAllCI "z-lib".data l
  let l := removeAllCI "pdf-free".data l
  let l := removeAllCI ".com".data l
  let l := removeAllCI ".net".data l
  let l := removeWordRunsContaining "free".data l
  removeWordRunsContaining "ebook".data l

/-- `clean_search_query_nome_arquivo` (Livrando.py:819-907), step by step
in source order. `unicodedata.normalize('NFKC', ...)` is the identity on
the character repertoire modelled here. The final fallback (`len < 3`)
re-cleans the already-cleaned text, as the source does (it reads `text`,
not the original argument). -/
def clean_search_query_nome_arquivo (s : String) : String :=
  if s = "" then ""
  else
    let t := removeBracketNum s.data
    let t := junkChain t
    let t := t.map invisibleToSpace
    let t := t.map unicodeDashToHyphen
    let t := collapsePlusUnderscore t
    let t := collapseDotRuns t
    let t := t.map plusUnderscoreToSpace
    let t := dotLookaround none none t
    let t := dashBetweenWords none t
    let t := trimLeadDashes t
    let t := trimTrailDashes t
    let t := removeExtAtEnd t
    let t := removeIsolatedNums t
    let t := removeLeadNumSpace t
    let t := removeTrailNumSpace t
    let t := removeNovoAlts ["documento".data, "arquivo".data, "file".data] t
    let t := removeNovoAlts ["doc".data, "txt".data, "texto".data] t
    let t := removeDocumentoPat t
    let t := removeAllCI "untitled".data t
    let t := removeAllCI "sem título".data t
    let t := normalizeSpacesList t
    if t.length < 3 then
      let u := removeBracketNum t
      let u := collapsePlusUnderscore u
      let u := u.map plusUnderscoreToSpace
      String.mk (normalizeSpacesList u)
    else String.mk t

/-- Canonical-form invariant: no two adjacent plain spaces. -/
def NoDoubleSpace (l : List Char) : Prop :=
  List.Chain' (fun a b => ¬(a = ' ' ∧ b = ' ')) l

/-- Canonical-form invariant: every whitespace character is a plain
space. -/
def WsOk (l : List Char) : Prop := ∀ c ∈ l, isPySpace c = true → c = ' '

/-- Canonical-form invariant: no two adjacent hyphen/underscore
characters. -/
def NoDashRun (l : List Char) : Prop :=
  List.Chain' (fun a b => ¬(isDashU a = true ∧ isDashU b = true)) l

/-- Canonical-form invariant: every character passes `sanitize_filename`'s
printable-or-allowlisted filter. -/
def PrintOk (l : List Char) : Prop :=
  ∀ c ∈ l, (pyIsPrintable c || decide (c ∈ accentAllowlist)) = true

/-! ## Filename parsing (`extract_title_author_from_filename`
Livrando.py:465-543, `looks_like_title` Livrando.py:696-726,
`KNOWN_AUTHORS` Livrando.py:71-75) -/

/-- `KNOWN_AUTHORS` (Livrando.py:71-75), in source order; note the last
entry is not lower-cased in the source. -/
def KNOWN_AUTHORS : List String :=
  ["stephen king", "agatha christie", "j.k. rowling", "paulo coelho",
   "dan brown", "george r.r. martin", "j.r.r. tolkien", "rick riordan",
   "Alexandra Sellers"]

/-- Python `hay.find(needle)` scanning from index `i`: the index of the
first occurrence, `none` when absent (`none` plays the role of `-1`; a
successful `find` after an `in` test is modelled by matching on this). -/
def pyFindAux (needle : List Char) : Nat → List Char → Option Nat
  | i, [] => if needle.isEmpty then some i else none
  | i, c :: t => if needle.isPrefixOf (c :: t) then some i else pyFindAux needle (i + 1) t

/-- Python `hay.find(needle)`. -/
def pyFind (hay needle : String) : Option Nat := pyFindAux needle.data 0 hay.data

/-- Python `str.split()` with no argument: split on whitespace runs,
dropping empty pieces (`acc` is the current word, reversed). -/
def splitWsGo : List Char → List Char → List (List Char)
  | acc, [] => if acc.isEmpty then [] else [acc.reverse]
  | acc, c :: t =>
    if isPySpace c then
      if acc.isEmpty then splitWsGo [] t else acc.reverse :: splitWsGo [] t
    else splitWsGo (c :: acc) t

/-- Python `str.split()` with no argument. -/
def pySplitWs (l : List Char) : List (List Char) := splitWsGo [] l

/-- Python `str.isdigit()` on the decimal-digit repertoire occurring in
this program (other Unicode digit forms never appear in its strings). -/
def pyIsDigitStr (l : List Char) : Bool := !l.isEmpty && l.all Char.isDigit

/-- A cased character (ASCII repertoire, as used by the fixtures). -/
def isCased (c : Char) : Bool := c.isUpper || c.isLower

/-- Python `str.isupper()`: at least one cased character and every cased
character uppercase. -/
def pyIsUpperStr (l : List Char) : Bool :=
  l.any isCased && l.all (fun c => !isCased c || c.isUpper)

/-- `looks_like_title` (Livrando.py:696-726): length guards on the raw
then stripped text, not all-digits, not a long all-uppercase string, and
either several words or one word longer than 4 characters. -/
def looks_like_title (text : String) : Bool :=
  if text.data.isEmpty || text.data.length < 3 then false
  else
    let t := pyStripList text.data
    if 150 < t.length then false
    else if pyIsDigitStr t then false
    else if pyIsUpperStr t ∧ 8 < t.length then false
    else
      let words := pySplitWs t
      if 2 ≤ words.length then true
      else if words.length = 1 ∧ 4 < t.length then true
      else false

/-- The separator characters accepted right after a leading author
(`('-', '–', '—', ':')` at Livrando.py:481). -/
def dashColonChars : List Char := ['-', '–', '—', ':']

/-- The dash characters accepted right before a trailing author
(`('-', '–', '—')` at Livrando.py:489-491). -/
def dashChars : List Char := ['-', '–', '—']

/-- One iteration of the `KNOWN_AUTHORS` loop of
`extract_title_author_from_filename` (Livrando.py:469-494): a
case-insensitive substring test, then the author-at-start pattern
`Autor - Título` or the author-at-end pattern `Título - Autor`; `none`
falls through to the next known author. -/
def knownAuthorAttempt (filename author : String) : Option (String × String) :=
  match pyFind (pyLower filename) (pyLower author) with
  | none => none
  | some authorStart =>
    if authorStart = 0 then
      match pyStripList (filename.data.drop author.data.length) with
      | c :: restT =>
        if c ∈ dashColonChars then
          let title := String.mk (pyStripList restT)
          if title ≠ "" ∧ looks_like_title title = true then some (title, author) else none
        else none
      | [] => none
    else
      let t0 := pyStripList (filename.data.take authorStart)
      if t0 ≠ [] ∧ (t0.getLastD ' ' ∈ dashChars ∨ looks_like_title (String.mk t0) = true) then
        let t1 := if t0.getLastD ' ' ∈ dashChars then pyStripList t0.dropLast else t0
        if t1 ≠ [] ∧ looks_like_title (String.mk t1) = true then
          some (String.mk t1, author)
        else none
      else none

/-- The `KNOWN_AUTHORS` loop: the first author whose attempt returns a
result, in list order. -/
def knownAuthorSearch (filename : String) : Option (String × String) :=
  KNOWN_AUTHORS.findSome? (knownAuthorAttempt filename)

/-- `extract_title_author_from_filename` (Livrando.py:465-543). The
regex-pattern cascade and final `(filename, None)` return
(Livrando.py:496-543) only run when the known-author loop finds nothing;
that unreached tail is abstracted as the `fallback` argument, and the
theorems about this function quantify over it. -/
def extract_title_author_from_filename (filename : String)
    (fallback : String × Option String) : String × Option String :=
  match knownAuthorSearch filename with
  | some (t, a) => (t, some a)
  | none => fallback

/-! ## ISBN lookup (`search_by_isbn` Livrando.py:1193-1291) -/

/-- One entry of `volumeInfo["industryIdentifiers"]`: the `type` and
`identifier` fields (missing fields default to `""` via `.get`). -/
structure GBIndustryId where
  idType : String
  identifier : String
deriving DecidableEq

/-- One Google Books item as `search_by_isbn` reads it: `volumeInfo`
fields with their `.get` defaults (`title` and `publishedDate` default to
`""`, the lists to `[]`; `imageLinks` is outside this model). -/
structure GBVolume where
  title : String
  authors : List String
  publishedDate : String
  categories : List String
  industryIdentifiers : List GBIndustryId
deriving DecidableEq

/-- The Open Library ISBN record as `search_by_isbn` reads it. `authors`
is the resolved author-name list produced by the per-author detail
fetches with the inline-name fallback (Livrando.py:1258-1274): that
resolution is network behaviour, so the environment supplies its
result. -/
structure OLData where
  isbn_10 : List String
  isbn_13 : List String
  title : Option String
  authors : List String
  publish_date : Option String
  subjects : List String
deriving DecidableEq

/-- Python `s.replace("-", "")`. -/
def stripDashes (s : String) : String := String.mk (s.data.filter (fun c => c ≠ '-'))

/-- Python `str.upper()` (ASCII repertoire of the identifier types). -/
def pyUpper (s : String) : String := String.mk (s.data.map Char.toUpper)

/-- The rigorous exact-match test of `search_by_isbn`
(Livrando.py:1209-1220): some industry identifier equals the query ISBN
after dash removal on both sides and has type `ISBN_10` or `ISBN_13`
(upper-cased). -/
def gbExactMatch (isbn : String) (v : GBVolume) : Bool :=
  v.industryIdentifiers.any (fun idO =>
    stripDashes idO.identifier = stripDashes isbn ∧
    (pyUpper idO.idType = "ISBN_10" ∨ pyUpper idO.idType = "ISBN_13"))

/-- The quality check of the Google Books branch (Livrando.py:1227-1229):
non-empty title longer than 2, non-empty author list whose first entry is
longer than 2 (all five conjuncts as in the source). -/
def gbQuality (v : GBVolume) : Bool :=
  v.title ≠ "" ∧ 2 < v.title.data.length ∧ v.authors ≠ [] ∧
    0 < v.authors.length ∧ 2 < (v.authors.headD "").data.length

/-- The Google Books `for item in items` loop of `search_by_isbn`
(Livrando.py:1205-1245): the first item with an exact ISBN match and
passing quality yields the result dict with score `1.0`; items failing
either test are skipped. -/
def searchByIsbnGB (isbn : String) : List GBVolume → Option ApiMeta
  | [] => none
  | v :: rest =>
    if gbExactMatch isbn v then
      if gbQuality v then
        some (baseMeta (some v.title) v.authors
          (if v.publishedDate = "" then none else firstYear v.publishedDate)
          v.categories "Google Books (ISBN)" 1)
      else searchByIsbnGB isbn rest
    else searchByIsbnGB isbn rest

/-- `search_by_isbn` (Livrando.py:1193-1291) with the HTTP layer
abstracted: `gb` is the parsed Google Books `items` list (`none` for a
network failure, a non-200 status, or a missing `items` key) and `ol` the
parsed Open Library record (`none` likewise). Open Library is consulted
only when the Google Books loop returned nothing; its membership test
(line 1257) compares the ISBN verbatim, without dash removal; both
branches hard-code `score: 1.0`. Any exception path returns `None`. -/
def search_by_isbn (isbn : String) (gb : Option (List GBVolume))
    (ol : Option OLData) : Option ApiMeta :=
  match (match gb with | none => none | some items => searchByIsbnGB isbn items) with
  | some r => some r
  | none =>
    match ol with
    | none => none
    | some d =>
      if isbn ∈ d.isbn_10 ∨ isbn ∈ d.isbn_13 then
        if (d.title.getD "") ≠ "" ∧ d.authors ≠ [] ∧
            2 < (d.title.getD "").data.length ∧ 2 < (d.authors.headD "").data.length then
          some (baseMeta d.title d.authors
            (match d.publish_date with
             | none => none
             | some p => if p = "" then none else some p)
            (d.subjects.take 3) "Open Library (ISBN)" 1)
        else none
      else none

/-! ## Resolution cascade (`process_file` Livrando.py:2134-2178,
`extract_and_search_isbn` Livrando.py:2180-2199, `extract_and_search_api`
Livrando.py:2201-2224, `extract_and_search_filename`
Livrando.py:2226-2261, `buscar_simulacao` Livrando.py:2011-2032) -/

/-- The candidate-metadata fields `validate_metadata` inspects, read off
a Source Matcher result dict (the cascade flags never touch `title` or
`authors`). -/
def metaDictOf (m : ApiMeta) : MetaDict :=
  ⟨match m.title with | none => PyField.absent | some t => PyField.str t,
   m.authors.map PyField.str⟩

/-- `buscar_simulacao` (Livrando.py:2011-2032): hard-coded records for
queries containing `harry potter` or `senhor dos anéis` (the `autor`
argument is unused in the source). -/
def buscar_simulacao (titulo : String) (autor : Option String) : Option ApiMeta :=
  if strContains (pyLower titulo) "harry potter" then
    some (baseMeta (some "Harry Potter") ["J.K. Rowling"] (some "1997")
      ["Fantasy"] "Simulação" (3/5))
  else if strContains (pyLower titulo) "senhor dos anéis" then
    some (baseMeta (some "O Senhor dos Anéis") ["J.R.R. Tolkien"] (some "1954")
      ["Fantasy"] "Simulação" (3/5))
  else none

/-- The per-file environment of the cascade: everything `process_file`
and its three extractors obtain from the filesystem and the network.
`extractedIsbn` is `extract_isbn_rigorous`'s result, `gbIsbnItems`/
`olIsbnData` the ISBN-lookup responses, `localTitle`/`localAuthors` the
`extract_local_metadata` fields (`none` covers a failed or empty
extraction), `buscar` the `buscar_metadados_inteligente` oracle (network
plus cache), `parseFallback` the regex-pattern-cascade tail of the
filename parser, and `nameOnly` the file name without its extension. -/
structure Env where
  fileExists : Bool
  extractedIsbn : Option String
  gbIsbnItems : Option (List GBVolume)
  olIsbnData : Option OLData
  localTitle : Option String
  localAuthors : List String
  buscar : String → Option String → Option ApiMeta
  parseFallback : String → String × Option String
  nameOnly : String

/-- Which cascade stage produced an accepted record. -/
inductive Stage where
  | isbn
  | localApi
  | filenameApi
  | simulation
deriving DecidableEq

/-- The outcome of `process_file` as far as filing is concerned: skipped
(missing file), resolved with a record from some stage, or moved to the
not-located folder. -/
inductive Resolution where
  | skippedMissing
  | resolved (stage : Stage) (meta : ApiMeta)
  | toUnknown
deriving DecidableEq

/-- `extract_and_search_isbn` (Livrando.py:2180-2199): extract an ISBN,
look it up, and accept only when the returned score exceeds `0.8`, then
set the `isbn` and `isbn_found` fields on the accepted dict. -/
def extract_and_search_isbn (env : Env) : Option ApiMeta :=
  match env.extractedIsbn with
  | none => none
  | some isbn =>
    match search_by_isbn isbn env.gbIsbnItems env.olIsbnData with
    | some r =>
      if r.score > 4/5 then some { r with isbn := some isbn, isbn_found := true }
      else none
    | none => none

/-- `extract_and_search_api` (Livrando.py:2201-2224): clean the local
title (and first author, when present), query the matcher, and accept
only records passing `validate_metadata`, setting `api_found`. -/
def extract_and_search_api (env : Env) : Option ApiMeta :=
  match env.localTitle with
  | none => none
  | some t0 =>
    if t0 = "" then none
    else
      match env.buscar (clean_search_query_nome_arquivo t0)
        (match env.localAuthors with
         | [] => none
         | a0 :: _ => some (clean_search_query_nome_arquivo a0)) with
      | some resultado =>
        if validate_metadata (metaDictOf resultado) then
          some { resultado with api_found := true }
        else none
      | none => none

/-- The last-resort simulation attempt of `extract_and_search_filename`
(Livrando.py:2255-2260): an unvalidated simulated record, flagged
`filename_found`; the boolean marks the simulated provenance for the
theorems. -/
def trySim (cleanName : String) : Option (ApiMeta × Bool) :=
  match buscar_simulacao cleanName none with
  | some r => some ({ r with filename_found := true }, true)
  | none => none

/-- `extract_and_search_filename` (Livrando.py:2226-2261): parse the
cleaned file name, try a title/author query then a generic query (both
gated by `validate_metadata`), and finally the simulation; the boolean
marks a simulated record. -/
def extract_and_search_filename (env : Env) : Option (ApiMeta × Bool) :=
  let cleanName := clean_search_query_nome_arquivo env.nameOnly
  let parsed := extract_title_author_from_filename cleanName (env.parseFallback cleanName)
  match (if parsed.1 ≠ "" then
      match env.buscar parsed.1 parsed.2 with
      | some resultado =>
        if validate_metadata (metaDictOf resultado) then
          some { resultado with filename_found := true }
        else none
      | none => none
    else none) with
  | some r => some (r, false)
  | none =>
    match env.buscar cleanName none with
    | some resultado =>
      if validate_metadata (metaDictOf resultado) then
        some ({ resultado with filename_found := true }, false)
      else trySim cleanName
    | none => trySim cleanName

/-- Stage 3 of `process_file` (Livrando.py:2171-2175 plus the fallthrough
to `move_to_unknown`): accept a filename-stage record carrying the
`filename_found` flag. -/
def processStage3 (env : Env) : Resolution :=
  match extract_and_search_filename env with
  | some (r, sim) =>
    if r.filename_found then
      Resolution.resolved (if sim then Stage.simulation else Stage.filenameApi) r
    else Resolution.toUnknown
  | none => Resolution.toUnknown

/-- Stages 2 and 3 of `process_file` (Livrando.py:2165-2178). The first
boolean of the result records that stage 2 ran, the second that stage 3
ran. -/
def stage23 (env : Env) : Resolution × Bool × Bool :=
  match extract_and_search_api env with
  | some r =>
    if r.api_found then (Resolution.resolved Stage.localApi r, true, false)
    else (processStage3 env, true, true)
  | none => (processStage3 env, true, true)

/-- `process_file` (Livrando.py:2134-2178), instrumented: the result is
the filing outcome together with two booleans recording whether the
local-metadata stage and the filename stage were invoked. -/
def process_file_t (env : Env) : Resolution × Bool × Bool :=
  if env.fileExists then
    match extract_and_search_isbn env with
    | some r =>
      if r.isbn_found then (Resolution.resolved Stage.isbn r, false, false)
      else stage23 env
    | none => stage23 env
  else (Resolution.skippedMissing, false, false)

/-- `process_file`'s filing outcome. -/
def process_file (env : Env) : Resolution := (process_file_t env).1

/-! ## Concrete cascade fixtures for the C1, C2 and C10 theorems -/

/-- A Google Books item whose exact-match and quality checks pass but
whose title contains the placeholder token `unknown`. -/
def c1vol : GBVolume :=
  ⟨"Unknown Document", ["John Doe"], "", [], [⟨"ISBN_10", "0306406152"⟩]⟩

/-- The dict `search_by_isbn` builds from `c1vol`. -/
def c1meta : ApiMeta :=
  baseMeta (some "Unknown Document") ["John Doe"] none [] "Google Books (ISBN)" 1

/-- `c1meta` after the ISBN stage sets its flags. -/
def c1final : ApiMeta := { c1meta with isbn := some "0306406152", isbn_found := true }

/-- An environment whose ISBN stage accepts `c1meta`. -/
def envC1 : Env :=
  ⟨true, some "0306406152", some [c1vol], none, none, [],
   fun _ _ => none, fun s => (s, none), ""⟩

/-- A matcher record for the C1 witness (a local-metadata hit). -/
def c1wRec : ApiMeta :=
  baseMeta (some "Dom Casmurro") ["Machado de Assis"] none [] "Google Books" (1/2)

/-- `c1wRec` after the local-metadata stage sets its flag. -/
def c1wFinal : ApiMeta := { c1wRec with api_found := true }

/-- An environment whose local-metadata stage accepts `c1wRec`. -/
def envC1W : Env :=
  ⟨true, none, none, none, some "Dom Casmurro", ["Machado de Assis"],
   fun _ _ => some c1wRec, fun s => (s, none), ""⟩

/-- A Google Books item with an exact ISBN-13 match and good quality. -/
def c2vol : GBVolume :=
  ⟨"Moby Dick", ["Herman Melville"], "1851", ["Fiction"],
   [⟨"ISBN_13", "9780306406157"⟩]⟩

/-- The dict `search_by_isbn` builds from `c2vol`. -/
def c2meta : ApiMeta :=
  baseMeta (some "Moby Dick") ["Herman Melville"] (some "1851") ["Fiction"]
    "Google Books (ISBN)" 1

/-- An environment whose ISBN stage accepts `c2meta`. -/
def envC2 : Env :=
  ⟨true, some "9780306406157", some [c2vol], none, none, [],
   fun _ _ => none, fun s => (s, none), ""⟩

/-- An Open Library record with a verbatim ISBN-10 match and good
quality. -/
def c10ol : OLData :=
  ⟨["0306406152"], [], some "Principles of Physics", ["John Smith"],
   some "1999", ["Physics", "Science", "Mechanics", "Extra"]⟩

/-- The dict `search_by_isbn` builds from `c10ol`. -/
def c10meta : ApiMeta :=
  baseMeta (some "Principles of Physics") ["John Smith"] (some "1999")
    ["Physics", "Science", "Mechanics"] "Open Library (ISBN)" 1

/-- An environment whose ISBN stage accepts `c10meta` via Open Library. -/
def envC10 : Env :=
  ⟨true, some "0306406152", none, some c10ol, none, [],
   fun _ _ => none, fun s => (s, none), ""⟩

/-! ## Theorems -/

theorem token_score_comm (a b : String) : token_score a b = token_score b a := by
  unfold token_score
  by_cases hab : a = "" ∨ b = ""
  · rw [if_pos hab, if_pos (Or.symm hab)]
  · rw [if_neg hab, if_neg (fun h => hab (Or.symm h))]
    by_cases hts : tokenSet a = ∅ ∨ tokenSet b = ∅
    · rw [if_pos hts, if_pos (Or.symm hts)]
    · rw [if_neg hts, if_neg (fun h => hts (Or.symm h))]
      rw [Finset.inter_comm, Finset.union_comm]

theorem tokenSet_empty_string : tokenSet "" = ∅ := rfl

theorem token_score_self (a : String) (h : tokenSet a ≠ ∅) :
    token_score a a = 1 := by
  have ha : a ≠ "" := by
    intro he
    exact h (he ▸ tokenSet_empty_string)
  have hcard : 0 < (tokenSet a).card :=
    Finset.card_pos.mpr (Finset.nonempty_iff_ne_empty.mpr h)
  unfold token_score
  rw [if_neg (by simp [ha]), if_neg (by simp [h])]
  rw [Finset.inter_self, Finset.union_self]
  rw [max_eq_right (by exact_mod_cast hcard)]
  have hne : ((tokenSet a).card : ℚ) ≠ 0 := by exact_mod_cast hcard.ne'
  exact div_self hne

theorem dedup_const {α : Type} [DecidableEq α] (a : α) :
    ∀ l : List α, l ≠ [] → (∀ x ∈ l, x = a) → l.dedup = [a] := by
  intro l
  induction l with
  | nil => intro h _; exact absurd rfl h
  | cons c t ih =>
    intro _ hall
    have hc : c = a := hall c (List.mem_cons_self c t)
    rcases eq_or_ne t [] with ht | ht
    · subst ht; simp [hc]
    · have hta : ∀ x ∈ t, x = a := fun x hx => hall x (List.mem_cons_of_mem c hx)
      have hd := ih ht hta
      have hmem : c ∈ t := by
        obtain ⟨y, t2, rfl⟩ := List.exists_cons_of_ne_nil ht
        have hy : y = a := hta y (List.mem_cons_self y t2)
        rw [hc, ← hy]; exact List.mem_cons_self y t2
      rw [List.dedup_cons_of_mem hmem, hd]

theorem allSameChar_of_const (l : List Char) (hne : l ≠ [])
    (hall : ∀ x ∈ l, ∀ y ∈ l, x = y) : allSameChar l = true := by
  obtain ⟨c, t, rfl⟩ := List.exists_cons_of_ne_nil hne
  have : (c :: t).dedup = [c] :=
    dedup_const c (c :: t) hne (fun x hx => hall x hx c (List.mem_cons_self c t))
  simp [allSameChar, this]

theorem allSameChar_eq_false_of_two (l : List Char) {x y : Char}
    (hx : x ∈ l) (hy : y ∈ l) (hxy : x ≠ y) : allSameChar l = false := by
  by_contra h
  have h1 : l.dedup.length = 1 := by
    have := Bool.not_eq_false (allSameChar l) |>.mp h
    simpa [allSameChar] using this
  obtain ⟨b, hb⟩ := List.length_eq_one.mp h1
  have hxb : x = b := by
    have : x ∈ l.dedup := List.mem_dedup.mpr hx
    rw [hb] at this; simpa using this
  have hyb : y = b := by
    have : y ∈ l.dedup := List.mem_dedup.mpr hy
    rw [hb] at this; simpa using this
  exact hxy (hxb.trans hyb.symm)

theorem stripNonIsbn_eq_self (l : List Char) (h : ∀ c ∈ l, c.isDigit ∨ c = 'X') :
    stripNonIsbn l = l := by
  apply List.filter_eq_self.mpr
  intro c hc
  rcases h c hc with hd | hx
  · simp [hd]
  · simp [hx]

theorem is_valid_isbn_false_of_allSame (s : String) (hne : s.data ≠ [])
    (hdig : ∀ c ∈ s.data, c.isDigit)
    (hall : ∀ x ∈ s.data, ∀ y ∈ s.data, x = y) : is_valid_isbn s = false := by
  have hstrip : stripNonIsbn s.data = s.data :=
    stripNonIsbn_eq_self s.data (fun c hc => Or.inl (hdig c hc))
  unfold is_valid_isbn
  rw [hstrip, if_pos]
  exact Or.inr (Or.inr (Or.inr (allSameChar_of_const s.data hne hall)))

theorem check_if_eq_mod (t : Nat) :
    (if 10 - t % 10 = 10 then 0 else 10 - t % 10) = (10 - t % 10) % 10 := by
  have hm : t % 10 < 10 := Nat.mod_lt _ (by norm_num)
  rcases eq_or_ne (10 - t % 10) 10 with h | h
  · rw [if_pos h, h]
  · rw [if_neg h, Nat.mod_eq_of_lt (show 10 - t % 10 < 10 by omega)]

theorem isbn10_characterization (s : String) (h : isbn10Candidate s) :
    is_valid_isbn s =
      (spec_isbn10_checksum s && !(sevenZeros.isPrefixOf s.data) &&
        !allSameChar s.data) := by
  obtain ⟨hlen, hdig, hc9⟩ := h
  have hlen' : s.data.length = 10 := hlen
  have hmem : ∀ c ∈ s.data, c.isDigit ∨ c = 'X' := by
    intro c hcmem
    obtain ⟨i, hi, rfl⟩ := List.mem_iff_getElem.mp hcmem
    rw [hlen'] at hi
    rcases Nat.lt_or_ge i 9 with h9 | h9
    · left
      have := hdig i h9
      rwa [List.getD_eq_getElem s.data ' ' (by omega)] at this
    · have hi9 : i = 9 := by omega
      subst hi9
      rcases hc9 with hd | hx
      · left; rwa [List.getD_eq_getElem s.data ' ' (by omega)] at hd
      · right; rwa [List.getD_eq_getElem s.data ' ' (by omega)] at hx
  have hstrip : stripNonIsbn s.data = s.data := stripNonIsbn_eq_self s.data hmem
  unfold is_valid_isbn
  rw [hstrip]
  by_cases hp7 : sevenZeros.isPrefixOf s.data = true
  · rw [if_pos (Or.inl hp7)]
    simp [hp7]
  · by_cases hall : allSameChar s.data = true
    · rw [if_pos (Or.inr (Or.inr (Or.inr hall)))]
      simp [hall]
    · have hnot : ¬(sevenZeros.isPrefixOf s.data = true ∨
          s.data = "0000000000".data ∨ s.data = "0000000000000".data ∨
          allSameChar s.data = true) := by
        rintro (h | h | h | h)
        · exact hp7 h
        · rw [h] at hall; exact hall (by decide)
        · have := congrArg List.length h
          rw [hlen'] at this
          simp at this
        · exact hall h
      rw [if_neg hnot, if_pos hlen']
      have harm : isbn10Arm s.data = spec_isbn10_checksum s := by
        unfold isbn10Arm spec_isbn10_checksum
        have hall9 : (List.range 9).all (fun i => (s.data.getD i ' ').isDigit) = true := by
          rw [List.all_eq_true]
          intro i hi
          exact hdig i (List.mem_range.mp hi)
        rw [if_pos hall9]
        rcases hc9 with hd | hx
        · have hx9 : s.data.getD 9 ' ' ≠ 'X' := by
            intro hX; rw [hX] at hd; exact absurd hd (by decide)
          rw [if_neg hx9, if_pos hd, if_neg hx9]
        · rw [if_pos hx, if_pos hx]
      rw [harm]
      rw [Bool.not_eq_true] at hp7 hall
      rw [hp7, hall]
      simp

theorem isbn13_characterization (s : String) (h : isbn13Candidate s) :
    is_valid_isbn s = spec_isbn13_ok s := by
  obtain ⟨hlen, hdig⟩ := h
  have hlen' : s.data.length = 13 := hlen
  have hstrip : stripNonIsbn s.data = s.data :=
    stripNonIsbn_eq_self s.data (fun c hc => Or.inl (hdig c hc))
  unfold is_valid_isbn
  rw [hstrip]
  by_cases hpre : (['9','7','8'].isPrefixOf s.data || ['9','7','9'].isPrefixOf s.data) = true
  · have hcons : ∃ t, s.data = '9' :: '7' :: t := by
      rcases Bool.or_eq_true _ _ |>.mp hpre with h8 | h9
      · obtain ⟨t, ht⟩ := (List.isPrefixOf_iff_prefix.mp h8)
        exact ⟨'8' :: t, ht.symm⟩
      · obtain ⟨t, ht⟩ := (List.isPrefixOf_iff_prefix.mp h9)
        exact ⟨'9' :: t, ht.symm⟩
    obtain ⟨t, ht⟩ := hcons
    have hall : allSameChar s.data = false := by
      apply allSameChar_eq_false_of_two s.data (x := '9') (y := '7')
      · rw [ht]; simp
      · rw [ht]; simp
      · decide
    have hp7 : sevenZeros.isPrefixOf s.data = false := by
      rw [ht]; rfl
    have hnot : ¬(sevenZeros.isPrefixOf s.data = true ∨
        s.data = "0000000000".data ∨ s.data = "0000000000000".data ∨
        allSameChar s.data = true) := by
      rintro (h | h | h | h)
      · rw [hp7] at h; exact Bool.false_ne_true h
      · have hl : (13 : Nat) = "0000000000".data.length := by rw [← hlen', h]
        exact absurd hl (by decide)
      · have hh : s.data.headD ' ' = "0000000000000".data.headD ' ' := by rw [h]
        rw [ht] at hh
        simp only [List.headD_cons] at hh
        exact absurd hh (by decide)
      · rw [hall] at h; exact Bool.false_ne_true h
    rw [if_neg hnot, if_neg (by omega : ¬s.data.length = 10), if_pos hlen']
    unfold isbn13Arm spec_isbn13_ok
    rw [if_pos hpre, hpre]
    have hall12 : (List.range 12).all (fun i => (s.data.getD i ' ').isDigit) = true := by
      rw [List.all_eq_true]
      intro i hi
      have hi' : i < 12 := List.mem_range.mp hi
      rw [List.getD_eq_getElem s.data ' ' (by omega)]
      exact hdig _ (List.getElem_mem _)
    rw [if_pos hall12]
    simp only [check_if_eq_mod, Bool.true_and]
  · have hspec : spec_isbn13_ok s = false := by
      unfold spec_isbn13_ok
      rw [Bool.not_eq_true] at hpre
      rw [hpre]
      simp
    rw [hspec]
    by_cases hden : sevenZeros.isPrefixOf s.data = true ∨
        s.data = "0000000000".data ∨ s.data = "0000000000000".data ∨
        allSameChar s.data = true
    · rw [if_pos hden]
    · rw [if_neg hden, if_neg (by omega : ¬s.data.length = 10), if_pos hlen']
      unfold isbn13Arm
      rw [if_neg hpre]

/-- Claim C3 (counterexample): `"1111111111"` is a ten-character candidate
of nine digits plus a digit check character whose weighted sum is divisible
by 11, yet `is_valid_isbn` rejects it (all-same-digit denylist), so the
claimed iff between validity and the checksum alone is false. -/
theorem C3_counterexample :
    isbn10Candidate "1111111111" ∧ spec_isbn10_checksum "1111111111" = true ∧
      is_valid_isbn "1111111111" = false := by
  refine ⟨by decide, by decide, by decide⟩

/-- Claim C3 (amended): for every ten-character candidate (nine digits plus
a digit-or-`X` check character), `is_valid_isbn` returns true iff the
weighted checksum is divisible by 11 AND the candidate is neither
all-identical nor prefixed by seven zeros; for every thirteen-digit
candidate it returns true iff the string starts with 978/979 and the
alternating-weight check digit matches; the fixtures `0306406152` and
`9780306406157` are valid and every change of the last digit of the
latter is invalid. -/
theorem C3_amended :
    (∀ s : String, isbn10Candidate s →
        is_valid_isbn s =
          (spec_isbn10_checksum s && !(sevenZeros.isPrefixOf s.data) &&
            !allSameChar s.data)) ∧
    (∀ s : String, isbn13Candidate s → is_valid_isbn s = spec_isbn13_ok s) ∧
    is_valid_isbn "0306406152" = true ∧
    is_valid_isbn "9780306406157" = true ∧
    ∀ c ∈ ['0','1','2','3','4','5','6','8','9'],
      is_valid_isbn (String.mk ("978030640615".data ++ [c])) = false := by
  refine ⟨isbn10_characterization, isbn13_characterization, by decide, by decide, by decide⟩

/-- Witness for C3 at the two fixtures. -/
theorem C3_witness :
    isbn10Candidate "0306406152" ∧
      is_valid_isbn "0306406152" =
        (spec_isbn10_checksum "0306406152" &&
          !(sevenZeros.isPrefixOf "0306406152".data) &&
          !allSameChar "0306406152".data) ∧
    isbn13Candidate "9780306406157" ∧
      is_valid_isbn "9780306406157" = spec_isbn13_ok "9780306406157" :=
  ⟨by decide, C3_amended.1 "0306406152" (by decide), by decide,
    C3_amended.2.1 "9780306406157" (by decide)⟩

/-- Claim C4 (confirmed): every ISBN candidate that starts with four (or
more) leading zeros, or whose digits are all identical, is rejected by the
candidate validation of both live extraction paths
(`extract_isbn_from_pdf_smart` and `extract_isbn_generic`), regardless of
its checksum: a `0000` prefix trips the placeholder-prefix filter, and an
all-identical candidate trips `is_valid_isbn`'s all-same-digit denylist
(and the distinct-character filter of the smart path). -/
theorem C4_placeholder_candidates_rejected (cand : String) (contextOk : Bool)
    (h : ['0','0','0','0'].isPrefixOf cand.data = true ∨
         (cand.data ≠ [] ∧ (∀ c ∈ cand.data, c.isDigit) ∧
           ∀ x ∈ cand.data, ∀ y ∈ cand.data, x = y)) :
    pdf_smart_accepts contextOk cand = false ∧ generic_accepts cand = false := by
  rcases h with h0 | ⟨hne, hdig, hall⟩
  · constructor
    · simp [pdf_smart_accepts, h0]
    · simp [generic_accepts, h0]
  · have hv : is_valid_isbn cand = false :=
      is_valid_isbn_false_of_allSame cand hne hdig hall
    constructor
    · simp [pdf_smart_accepts, hv]
    · simp [generic_accepts, hv]

/-- Witness for C4 at the concrete candidates `"0000100005"` (four leading
zeros, checksum-correct) and `"1111111111"` (all digits identical,
checksum-correct). -/
theorem C4_witness :
    pdf_smart_accepts true "0000100005" = false ∧
      generic_accepts "0000100005" = false ∧
      pdf_smart_accepts true "1111111111" = false ∧
      generic_accepts "1111111111" = false := by
  refine ⟨(C4_placeholder_candidates_rejected "0000100005" true (Or.inl (by decide))).1,
    (C4_placeholder_candidates_rejected "0000100005" true (Or.inl (by decide))).2,
    (C4_placeholder_candidates_rejected "1111111111" true (Or.inr (by decide))).1,
    (C4_placeholder_candidates_rejected "1111111111" true (Or.inr (by decide))).2⟩

/-- Claim C9 (counterexample): `"!"` is a non-empty string, yet
`token_score "!" "!"` is 0, not 1, because `"!"` has no word tokens; so
reflexivity at full similarity fails for some non-empty strings. -/
theorem C9_counterexample :
    ("!" : String) ≠ "" ∧ token_score "!" "!" ≠ 1 := by
  constructor
  · decide
  · have h : token_score "!" "!" = 0 := rfl
    rw [h]; norm_num

/-- Claim C9 (amended): `token_score` is symmetric for all strings, and
`token_score a a = 1` for every string `a` whose word-token set is
non-empty (rather than for every non-empty string). -/
theorem C9_amended :
    (∀ a b : String, token_score a b = token_score b a) ∧
    (∀ a : String, tokenSet a ≠ ∅ → token_score a a = 1) :=
  ⟨token_score_comm, token_score_self⟩

/-- Witness for C9 at the string `"dom casmurro"`. -/
theorem C9_witness :
    tokenSet "dom casmurro" ≠ ∅ ∧ token_score "dom casmurro" "dom casmurro" = 1 :=
  ⟨by decide, C9_amended.2 "dom casmurro" (by decide)⟩

/-- Claim C5 (counterexample): the candidate with title
`"Anonymous Letters"` and first author `"Jane Roe"` has a title containing
the claimed denylist token `anonymous`, yet `validate_metadata` accepts
it — the code checks the title only against its title denylist, which
does not include `anonymous`. -/
theorem C5_counterexample :
    strContains (pyLower "Anonymous Letters") "anonymous" = true ∧
      validate_metadata ⟨.str "Anonymous Letters", [.str "Jane Roe"]⟩ = true := by
  constructor
  · decide
  · decide

/-- Claim C5 (amended): `validate_metadata` rejects exactly the candidates
with a missing/non-string title or first author, a trimmed title or first
author shorter than 2, an empty authors list, a title containing a token
of the title denylist (unknown, untitled, document, file, microsoft,
word), or a first author containing a token of the author denylist
(unknown, anonymous, author, user, admin, system, t_ms02); in particular
the candidate with title Untitled and author Unknown is always
rejected. -/
theorem C5_amended :
    (∀ m : MetaDict, validate_metadata m = validate_metadata_spec m) ∧
      validate_metadata ⟨.str "Untitled", [.str "Unknown"]⟩ = false := by
  constructor
  · intro m
    rcases m with ⟨tf, au⟩
    cases tf with
    | absent => rfl
    | nonstr => rfl
    | str t =>
      cases au with
      | nil => simp [validate_metadata, validate_metadata_spec]
      | cons a0 rest =>
        cases a0 with
        | absent => simp [validate_metadata, validate_metadata_spec]
        | nonstr => simp [validate_metadata, validate_metadata_spec]
        | str a =>
          simp only [validate_metadata, validate_metadata_spec]
          by_cases ht : (pyStrip t).length < 2
          · rw [if_pos ht]
            have : ¬(2 ≤ (pyStrip t).length) := by omega
            simp [this]
          · rw [if_neg ht]
            have ht2 : 2 ≤ (pyStrip t).length := by omega
            by_cases ha : (pyStrip a).length < 2
            · rw [if_pos ha]
              have : ¬(2 ≤ (pyStrip a).length) := by omega
              simp [this]
            · rw [if_neg ha]
              have ha2 : 2 ≤ (pyStrip a).length := by omega
              by_cases hti : invalid_titles.any (fun w => strContains (pyLower t) w) = true
              · rw [if_pos hti]
                simp [hti]
              · rw [if_neg hti]
                rw [Bool.not_eq_true] at hti
                by_cases hai : invalid_authors.any (fun w => strContains (pyLower a) w) = true
                · rw [if_pos hai]
                  simp [hai, hti, ht2, ha2]
                · rw [if_neg hai]
                  rw [Bool.not_eq_true] at hai
                  simp [hai, hti, ht2, ha2]
  · decide

theorem toNat_ofNat_of_valid (n : Nat) (h : n.isValidChar) :
    (Char.ofNat n).toNat = n := by
  unfold Char.ofNat
  rw [dif_pos h]
  rfl

theorem toLower_toLower (c : Char) : c.toLower.toLower = c.toLower := by
  unfold Char.toLower
  by_cases h : c.toNat ≥ 65 ∧ c.toNat ≤ 90
  · rw [if_pos h]
    have hv : (c.toNat + 32).isValidChar := Or.inl (by omega)
    simp only [toNat_ofNat_of_valid _ hv]
    have hn : ¬(c.toNat + 32 ≥ 65 ∧ c.toNat + 32 ≤ 90) := by omega
    rw [if_neg hn]
  · rw [if_neg h, if_neg h]

theorem pyLower_pyLower (s : String) : pyLower (pyLower s) = pyLower s := by
  unfold pyLower
  have hcomp : Char.toLower ∘ Char.toLower = Char.toLower := funext toLower_toLower
  show String.mk ((s.data.map Char.toLower).map Char.toLower) = String.mk (s.data.map Char.toLower)
  rw [List.map_map, hcomp]

theorem pyLower_eq_empty_iff (s : String) : pyLower s = "" ↔ s = "" := by
  constructor
  · intro h
    have hd : (pyLower s).data = [] := by rw [h]
    have : s.data.map Char.toLower = [] := hd
    have hnil : s.data = [] := List.map_eq_nil_iff.mp this
    cases s
    simp at hnil
    simp [hnil]
  · intro h
    rw [h]
    rfl

theorem tokenSet_pyLower (s : String) : tokenSet (pyLower s) = tokenSet s := by
  unfold tokenSet tokensList
  rw [pyLower_pyLower]

theorem token_score_lower_left (a b : String) :
    token_score (pyLower a) b = token_score a b := by
  unfold token_score
  simp only [pyLower_eq_empty_iff, tokenSet_pyLower]

theorem token_score_lower_right (a b : String) :
    token_score a (pyLower b) = token_score a b := by
  rw [token_score_comm, token_score_lower_left, token_score_comm]

theorem token_score_empty_left (b : String) : token_score "" b = 0 := by
  unfold token_score
  rw [if_pos (Or.inl rfl)]

theorem token_score_empty_right (a : String) : token_score a "" = 0 := by
  unfold token_score
  rw [if_pos (Or.inr rfl)]

theorem pyMaxD_map_zero {α : Type} (l : List α) :
    pyMaxD (l.map (fun _ => (0 : ℚ))) = 0 := by
  cases l with
  | nil => rfl
  | cons x xs =>
    show (xs.map (fun _ => (0 : ℚ))).foldl max 0 = 0
    induction xs with
    | nil => rfl
    | cons y ys ih =>
      rw [List.map_cons, List.foldl_cons, max_self]
      exact ih

theorem text_query_score_eq (titulo autor : String) (d : SearchDoc) :
    text_query_score titulo autor d = scoreC6 titulo autor d := by
  unfold text_query_score scoreC6
  congr 1
  · by_cases ht : titulo = ""
    · subst ht
      rw [if_neg (by simp), token_score_empty_left, mul_zero]
    · by_cases hT : d.title.getD "" = ""
      · rw [if_neg (by simp [hT, pyLower_eq_empty_iff]), hT,
          token_score_empty_right, mul_zero]
      · rw [if_pos ⟨ht, by simp [pyLower_eq_empty_iff, hT]⟩,
          token_score_lower_left, token_score_lower_right, mul_comm]
  · by_cases ha : autor = ""
    · subst ha
      rw [if_neg (by simp)]
      have hmap : d.authors.map (fun a => token_score "" a)
          = d.authors.map (fun _ => (0 : ℚ)) :=
        List.map_congr_left (fun a _ => token_score_empty_left a)
      rw [hmap, pyMaxD_map_zero, mul_zero]
    · by_cases hl : d.authors = []
      · rw [if_neg (by simp [hl]), hl]
        show 0 = 3/10 * pyMaxD []
        rw [show pyMaxD [] = 0 from rfl, mul_zero]
      · rw [if_pos ⟨ha, hl⟩]
        have hmap : d.authors.map (fun a => token_score (pyLower autor) (pyLower a))
            = d.authors.map (fun a => token_score autor a) :=
          List.map_congr_left (fun a _ => by
            rw [token_score_lower_left, token_score_lower_right])
        rw [hmap, mul_comm]

theorem bestLoop_fst_isSome {α : Type} (f : α → ℚ) :
    ∀ (l : List α) (z : α) (s : ℚ),
      ((l.foldl (bestStep f) (some z, s)).1).isSome = true := by
  intro l
  induction l with
  | nil => intro z s; rfl
  | cons x xs ih =>
    intro z s
    rw [List.foldl_cons]
    by_cases h : f x > s
    · rw [show bestStep f (some z, s) x = (some x, f x) from if_pos h]
      exact ih x (f x)
    · rw [show bestStep f (some z, s) x = (some z, s) from if_neg h]
      exact ih z s

theorem bestLoop_go_none {α : Type} (f : α → ℚ) :
    ∀ (l : List α) (b : Option α) (s t : ℚ),
      l.foldl (bestStep f) (b, s) = (none, t) →
      b = none ∧ t = s ∧ ∀ x ∈ l, f x ≤ s := by
  intro l
  induction l with
  | nil =>
    intro b s t h
    rw [List.foldl_nil] at h
    obtain ⟨h1, h2⟩ := Prod.mk.injEq .. ▸ h
    exact ⟨h1, h2.symm, by simp⟩
  | cons x xs ih =>
    intro b s t h
    rw [List.foldl_cons] at h
    by_cases hgt : f x > s
    · rw [show bestStep f (b, s) x = (some x, f x) from if_pos hgt] at h
      have := bestLoop_fst_isSome f xs x (f x)
      rw [h] at this
      exact absurd this (by simp)
    · rw [show bestStep f (b, s) x = (b, s) from if_neg hgt] at h
      obtain ⟨h1, h2, h3⟩ := ih b s t h
      refine ⟨h1, h2, ?_⟩
      intro y hy
      rcases List.mem_cons.mp hy with rfl | hmem
      · exact le_of_not_lt hgt
      · exact h3 y hmem

theorem bestLoop_go_some {α : Type} (f : α → ℚ) :
    ∀ (l : List α) (b : Option α) (s : ℚ) (y : α) (t : ℚ),
      l.foldl (bestStep f) (b, s) = (some y, t) →
      (b = some y ∧ t = s ∧ ∀ x ∈ l, f x ≤ s) ∨
      (∃ l1 l2, l = l1 ++ y :: l2 ∧ t = f y ∧ s < f y ∧
        (∀ x ∈ l1, f x < f y) ∧ (∀ x ∈ l2, f x ≤ f y)) := by
  intro l
  induction l with
  | nil =>
    intro b s y t h
    rw [List.foldl_nil] at h
    obtain ⟨h1, h2⟩ := Prod.mk.injEq .. ▸ h
    exact Or.inl ⟨h1, h2.symm, by simp⟩
  | cons x xs ih =>
    intro b s y t h
    rw [List.foldl_cons] at h
    by_cases hgt : f x > s
    · rw [show bestStep f (b, s) x = (some x, f x) from if_pos hgt] at h
      rcases ih (some x) (f x) y t h with ⟨h1, h2, h3⟩ | ⟨l1, l2, hsplit, ht, hlt, hl1, hl2⟩
      · have hxy : x = y := by injection h1
        refine Or.inr ⟨[], xs, by rw [hxy]; rfl, ?_, ?_, by simp, ?_⟩
        · rw [h2, hxy]
        · rw [← hxy]; exact hgt
        · intro z hz
          rw [← hxy]
          exact h3 z hz
      · refine Or.inr ⟨x :: l1, l2, by rw [hsplit]; rfl, ht, lt_trans hgt hlt, ?_, hl2⟩
        intro z hz
        rcases List.mem_cons.mp hz with rfl | hmem
        · exact hlt
        · exact hl1 z hmem
    · rw [show bestStep f (b, s) x = (b, s) from if_neg hgt] at h
      rcases ih b s y t h with ⟨h1, h2, h3⟩ | ⟨l1, l2, hsplit, ht, hlt, hl1, hl2⟩
      · refine Or.inl ⟨h1, h2, ?_⟩
        intro z hz
        rcases List.mem_cons.mp hz with rfl | hmem
        · exact le_of_not_lt hgt
        · exact h3 z hmem
      · refine Or.inr ⟨x :: l1, l2, by rw [hsplit]; rfl, ht, hlt, ?_, hl2⟩
        intro z hz
        rcases List.mem_cons.mp hz with rfl | hmem
        · exact lt_of_le_of_lt (le_of_not_lt hgt) hlt
        · exact hl1 z hmem

theorem bestLoop_some {α : Type} (f : α → ℚ) (l : List α) (y : α) (t : ℚ)
    (h : bestLoop f l = (some y, t)) :
    ∃ l1 l2, l = l1 ++ y :: l2 ∧ t = f y ∧ 0 < f y ∧
      (∀ x ∈ l1, f x < f y) ∧ (∀ x ∈ l2, f x ≤ f y) := by
  rcases bestLoop_go_some f l none 0 y t h with ⟨h1, _, _⟩ | hr
  · exact absurd h1 (by simp)
  · exact hr

theorem bestLoop_none {α : Type} (f : α → ℚ) (l : List α) (t : ℚ)
    (h : bestLoop f l = (none, t)) : ∀ x ∈ l, f x ≤ 0 :=
  (bestLoop_go_none f l none 0 t h).2.2

theorem select_characterization (build : SearchDoc → ℚ → ApiMeta)
    (titulo autor : String) (docs : List SearchDoc) (r : ApiMeta)
    (h : (match bestLoop (text_query_score titulo autor) docs with
          | (some best, s) => if s > 3/10 then some (build best s) else none
          | (none, _) => none) = some r) :
    ∃ l1 best l2, docs = l1 ++ best :: l2 ∧
      r = build best (scoreC6 titulo autor best) ∧
      scoreC6 titulo autor best > 3/10 ∧
      (∀ x ∈ l1, scoreC6 titulo autor x < scoreC6 titulo autor best) ∧
      (∀ x ∈ l2, scoreC6 titulo autor x ≤ scoreC6 titulo autor best) := by
  rcases hb : bestLoop (text_query_score titulo autor) docs with ⟨bo, s⟩
  cases bo with
  | none => rw [hb] at h; exact absurd h (by simp)
  | some best =>
    rw [hb] at h
    simp only at h
    by_cases hs : s > 3/10
    · rw [if_pos hs] at h
      obtain ⟨l1, l2, hsplit, ht, _, hl1, hl2⟩ :=
        bestLoop_some (text_query_score titulo autor) docs best s hb
      have hr : r = build best s := (Option.some.injEq .. ▸ h).symm
      refine ⟨l1, best, l2, hsplit, ?_, ?_, ?_, ?_⟩
      · rw [hr, ht, text_query_score_eq]
      · rw [← text_query_score_eq, ← ht]; exact hs
      · intro x hx
        rw [← text_query_score_eq, ← text_query_score_eq]
        exact hl1 x hx
      · intro x hx
        rw [← text_query_score_eq, ← text_query_score_eq]
        exact hl2 x hx
    · rw [if_neg hs] at h
      exact absurd h (by simp)

theorem select_characterization_none (titulo autor : String)
    (docs : List SearchDoc)
    (h : (bestLoop (text_query_score titulo autor) docs).2 ≤ 3/10 ∨
         (bestLoop (text_query_score titulo autor) docs).1 = none) :
    ∀ x ∈ docs, scoreC6 titulo autor x ≤ 3/10 := by
  rcases hb : bestLoop (text_query_score titulo autor) docs with ⟨bo, s⟩
  cases bo with
  | none =>
    intro x hx
    rw [← text_query_score_eq]
    calc text_query_score titulo autor x ≤ 0 :=
          bestLoop_none (text_query_score titulo autor) docs s hb x hx
      _ ≤ 3/10 := by norm_num
  | some best =>
    rw [hb] at h
    rcases h with hle | hnone
    · obtain ⟨l1, l2, hsplit, ht, _, hl1, hl2⟩ :=
        bestLoop_some (text_query_score titulo autor) docs best s hb
      intro x hx
      rw [← text_query_score_eq]
      have hx' : text_query_score titulo autor x ≤ s := by
        rw [hsplit] at hx
        rcases List.mem_append.mp hx with h1 | h2
        · exact le_of_lt (ht ▸ hl1 x h1)
        · rcases List.mem_cons.mp h2 with rfl | h3
          · exact le_of_eq ht.symm
          · exact ht ▸ hl2 x h3
      exact le_trans hx' hle
    · exact absurd hnone (by simp)

/-- Claim C6 (confirmed): in both provider text-query loops
(`buscar_google_books` and `buscar_open_library`), every result is scored
as `0.7 * tokenOverlap(queryTitle, resultTitle) + 0.3 * max over result
authors of tokenOverlap(queryAuthor, author)` with `tokenOverlap` the
Jaccard similarity over lower-cased word tokens (0 when either side has
no usable term); the returned result is the first-seen maximum (all
earlier results score strictly lower, all later ones no higher), and a
result is returned only if its score exceeds 0.3; when no result is
returned, either the query guard failed or every result scored at most
0.3. -/
theorem C6_provider_scoring :
    (∀ (titulo autor : String) (docs : List SearchDoc) (r : ApiMeta),
       buscar_google_books_core titulo autor (some docs) = some r →
       ∃ l1 best l2, docs = l1 ++ best :: l2 ∧
         r = gbBuild best (scoreC6 titulo autor best) ∧
         scoreC6 titulo autor best > 3/10 ∧
         (∀ x ∈ l1, scoreC6 titulo autor x < scoreC6 titulo autor best) ∧
         (∀ x ∈ l2, scoreC6 titulo autor x ≤ scoreC6 titulo autor best)) ∧
    (∀ (titulo autor : String) (docs : List SearchDoc),
       buscar_google_books_core titulo autor (some docs) = none →
       (titulo = "" ∧ (autor = "" ∨ autor = "Autor Desconhecido")) ∨
         ∀ x ∈ docs, scoreC6 titulo autor x ≤ 3/10) ∧
    (∀ (titulo autor : String) (docs : List SearchDoc) (r : ApiMeta),
       buscar_open_library_core titulo autor (some docs) = some r →
       ∃ l1 best l2, docs = l1 ++ best :: l2 ∧
         r = olBuild best (scoreC6 titulo autor best) ∧
         scoreC6 titulo autor best > 3/10 ∧
         (∀ x ∈ l1, scoreC6 titulo autor x < scoreC6 titulo autor best) ∧
         (∀ x ∈ l2, scoreC6 titulo autor x ≤ scoreC6 titulo autor best)) ∧
    (∀ (titulo autor : String) (docs : List SearchDoc),
       buscar_open_library_core titulo autor (some docs) = none →
       (titulo = "" ∧ autor = "") ∨
         ∀ x ∈ docs, scoreC6 titulo autor x ≤ 3/10) := by
  refine ⟨?_, ?_, ?_, ?_⟩
  · intro titulo autor docs r h
    unfold buscar_google_books_core at h
    by_cases hg : titulo = "" ∧ (autor = "" ∨ autor = "Autor Desconhecido")
    · rw [if_pos hg] at h
      exact absurd h (by simp)
    · rw [if_neg hg] at h
      exact select_characterization gbBuild titulo autor docs r h
  · intro titulo autor docs h
    unfold buscar_google_books_core at h
    by_cases hg : titulo = "" ∧ (autor = "" ∨ autor = "Autor Desconhecido")
    · exact Or.inl hg
    · rw [if_neg hg] at h
      refine Or.inr ?_
      rcases hb : bestLoop (text_query_score titulo autor) docs with ⟨bo, s⟩
      cases bo with
      | none =>
        exact select_characterization_none titulo autor docs (by rw [hb]; exact Or.inr rfl)
      | some best =>
        have h2 : (match bestLoop (text_query_score titulo autor) docs with
            | (some best, s) => if s > 3/10 then some (gbBuild best s) else none
            | (none, _) => none) = none := h
        rw [hb] at h2
        simp only at h2
        by_cases hs : s > 3/10
        · rw [if_pos hs] at h2
          exact absurd h2 (by simp)
        · exact select_characterization_none titulo autor docs
            (by rw [hb]; exact Or.inl (le_of_not_lt hs))
  · intro titulo autor docs r h
    unfold buscar_open_library_core at h
    by_cases hg : titulo = "" ∧ autor = ""
    · rw [if_pos hg] at h
      exact absurd h (by simp)
    · rw [if_neg hg] at h
      exact select_characterization olBuild titulo autor docs r h
  · intro titulo autor docs h
    unfold buscar_open_library_core at h
    by_cases hg : titulo = "" ∧ autor = ""
    · exact Or.inl hg
    · rw [if_neg hg] at h
      refine Or.inr ?_
      rcases hb : bestLoop (text_query_score titulo autor) docs with ⟨bo, s⟩
      cases bo with
      | none =>
        exact select_characterization_none titulo autor docs (by rw [hb]; exact Or.inr rfl)
      | some best =>
        have h2 : (match bestLoop (text_query_score titulo autor) docs with
            | (some best, s) => if s > 3/10 then some (olBuild best s) else none
            | (none, _) => none) = none := h
        rw [hb] at h2
        simp only at h2
        by_cases hs : s > 3/10
        · rw [if_pos hs] at h2
          exact absurd h2 (by simp)
        · exact select_characterization_none titulo autor docs
            (by rw [hb]; exact Or.inl (le_of_not_lt hs))

theorem token_score_eq_zero_of_inter (a b : String)
    (h : (tokenSet a ∩ tokenSet b).card = 0) : token_score a b = 0 := by
  unfold token_score
  by_cases h1 : a = "" ∨ b = ""
  · rw [if_pos h1]
  · rw [if_neg h1]
    by_cases h2 : tokenSet a = ∅ ∨ tokenSet b = ∅
    · rw [if_pos h2]
    · rw [if_neg h2, h, Nat.cast_zero, zero_div]

theorem c6good_score : text_query_score "dom casmurro" "machado" c6good = 1 := by
  unfold text_query_score c6good
  rw [if_pos (⟨by decide, by decide⟩ :
    ("dom casmurro" : String) ≠ "" ∧ pyLower ((some "dom casmurro").getD "") ≠ "")]
  rw [if_pos (⟨by decide, by decide⟩ :
    ("machado" : String) ≠ "" ∧ (["machado"] : List String) ≠ [])]
  have h1 : token_score (pyLower "dom casmurro") (pyLower ((some "dom casmurro").getD "")) = 1 :=
    token_score_self (pyLower "dom casmurro") (by decide)
  have h2 : token_score (pyLower "machado") (pyLower "machado") = 1 :=
    token_score_self (pyLower "machado") (by decide)
  rw [h1]
  rw [show (["machado"].map (fun a => token_score (pyLower "machado") (pyLower a)))
      = [token_score (pyLower "machado") (pyLower "machado")] from by rfl]
  rw [show pyMaxD [token_score (pyLower "machado") (pyLower "machado")]
      = token_score (pyLower "machado") (pyLower "machado") from by rfl]
  rw [h2]
  norm_num

theorem c6bad_score : text_query_score "dom casmurro" "machado" c6bad = 0 := by
  unfold text_query_score c6bad
  rw [if_pos (⟨by decide, by decide⟩ :
    ("dom casmurro" : String) ≠ "" ∧ pyLower ((some "x").getD "") ≠ "")]
  rw [if_neg (by simp : ¬(("machado" : String) ≠ "" ∧ ([] : List String) ≠ []))]
  rw [token_score_eq_zero_of_inter _ _ (by decide)]
  norm_num

theorem c6loop : bestLoop (text_query_score "dom casmurro" "machado") [c6bad, c6good]
    = (some c6good, 1) := by
  unfold bestLoop
  rw [List.foldl_cons, List.foldl_cons, List.foldl_nil]
  rw [show bestStep (text_query_score "dom casmurro" "machado") (none, 0) c6bad = (none, 0) from by
    unfold bestStep
    rw [if_neg]
    rw [c6bad_score]
    norm_num]
  unfold bestStep
  rw [c6good_score]
  rw [if_pos (by norm_num : (1:ℚ) > ((none : Option SearchDoc), (0:ℚ)).2)]

theorem c6gb : buscar_google_books_core "dom casmurro" "machado" (some [c6bad, c6good])
    = some (gbBuild c6good 1) := by
  unfold buscar_google_books_core
  rw [if_neg (by decide)]
  simp only [c6loop]
  rw [if_pos (by norm_num : (1:ℚ) > 3/10)]

theorem c6ol : buscar_open_library_core "dom casmurro" "machado" (some [c6bad, c6good])
    = some (olBuild c6good 1) := by
  unfold buscar_open_library_core
  rw [if_neg (by decide)]
  simp only [c6loop]
  rw [if_pos (by norm_num : (1:ℚ) > 3/10)]

/-- Witness for C6: a concrete Google Books query and a concrete Open
Library query each return the higher-scoring of two results, with a score
above 0.3. -/
theorem C6_witness :
    buscar_google_books_core "dom casmurro" "machado" (some [c6bad, c6good])
      = some (gbBuild c6good 1) ∧
    (gbBuild c6good (1 : ℚ)).score > 3/10 ∧
    buscar_open_library_core "dom casmurro" "machado" (some [c6bad, c6good])
      = some (olBuild c6good 1) ∧
    (olBuild c6good (1 : ℚ)).score > 3/10 := by
  refine ⟨c6gb, ?_, c6ol, ?_⟩
  · obtain ⟨l1, best, l2, _, hr, hgt, _, _⟩ :=
      C6_provider_scoring.1 "dom casmurro" "machado" _ _ c6gb
    rw [hr]
    exact hgt
  · obtain ⟨l1, best, l2, _, hr, hgt, _, _⟩ :=
      C6_provider_scoring.2.2.1 "dom casmurro" "machado" _ _ c6ol
    rw [hr]
    exact hgt

theorem collapseWsAux_nil (b : Bool) : collapseWsAux b [] = [] := by
  cases b <;> rfl

theorem cw_mem (b : Bool) (l : List Char) (c : Char)
    (h : c ∈ collapseWsAux b l) : c ∈ l ∨ c = ' ' := by
  induction l generalizing b with
  | nil => rw [collapseWsAux_nil] at h; simp at h
  | cons x xs ih =>
    unfold collapseWsAux at h
    by_cases hx : isPySpace x = true
    · rw [if_pos hx] at h
      cases b with
      | true =>
        rw [if_pos rfl] at h
        rcases ih true h with hm | hs
        · exact Or.inl (List.mem_cons_of_mem x hm)
        · exact Or.inr hs
      | false =>
        rw [if_neg (by decide)] at h
        rcases List.mem_cons.mp h with rfl | hm
        · exact Or.inr rfl
        · rcases ih true hm with hm2 | hs
          · exact Or.inl (List.mem_cons_of_mem x hm2)
          · exact Or.inr hs
    · rw [if_neg hx] at h
      rcases List.mem_cons.mp h with rfl | hm
      · exact Or.inl (List.mem_cons_self c xs)
      · rcases ih false hm with hm2 | hs
        · exact Or.inl (List.mem_cons_of_mem x hm2)
        · exact Or.inr hs

theorem cw_wsOk (b : Bool) (l : List Char) : WsOk (collapseWsAux b l) := by
  induction l generalizing b with
  | nil => intro c hc; rw [collapseWsAux_nil] at hc; simp at hc
  | cons x xs ih =>
    intro c hc hsp
    unfold collapseWsAux at hc
    by_cases hx : isPySpace x = true
    · rw [if_pos hx] at hc
      cases b with
      | true => exact ih true c hc hsp
      | false =>
        rw [if_neg (by decide)] at hc
        rcases List.mem_cons.mp hc with rfl | hm
        · rfl
        · exact ih true c hm hsp
    · rw [if_neg hx] at hc
      rcases List.mem_cons.mp hc with rfl | hm
      · exact absurd hsp hx
      · exact ih false c hm hsp

theorem cw_head_true (l : List Char) (c : Char)
    (h : (collapseWsAux true l).head? = some c) : isPySpace c = false := by
  induction l with
  | nil => rw [collapseWsAux_nil] at h; simp at h
  | cons x xs ih =>
    unfold collapseWsAux at h
    by_cases hx : isPySpace x = true
    · rw [if_pos hx] at h
      exact ih h
    · rw [if_neg hx] at h
      simp only [List.head?_cons, Option.some.injEq] at h
      rw [← h]
      exact Bool.not_eq_true _ ▸ hx

theorem cw_chain (b : Bool) (l : List Char) : NoDoubleSpace (collapseWsAux b l) := by
  induction l generalizing b with
  | nil => exact List.chain'_nil
  | cons x xs ih =>
    unfold collapseWsAux
    by_cases hx : isPySpace x = true
    · rw [if_pos hx]
      cases b with
      | true => exact ih true
      | false =>
        rw [if_neg (by decide)]
        apply List.chain'_cons'.mpr
        refine ⟨?_, ih true⟩
        intro y hy hcontra
        have := cw_head_true xs y hy
        rw [hcontra.2] at this
        exact absurd this (by decide)
    · rw [if_neg hx]
      apply List.chain'_cons'.mpr
      refine ⟨?_, ih false⟩
      intro y hy hcontra
      rw [hcontra.1] at hx
      exact hx (by decide)

theorem cw_fix_aux (l : List Char) (hws : WsOk l) (hdd : NoDoubleSpace l) :
    ∀ b : Bool, (b = true → ∀ c, l.head? = some c → isPySpace c = false) →
      collapseWsAux b l = l := by
  induction l with
  | nil => intro b _; rfl
  | cons x xs ih =>
    intro b hb
    have hws' : WsOk xs := fun c hc => hws c (List.mem_cons_of_mem x hc)
    have hdd' : NoDoubleSpace xs := hdd.tail
    unfold collapseWsAux
    by_cases hx : isPySpace x = true
    · have hx' : x = ' ' := hws x (List.mem_cons_self x xs) hx
      cases b with
      | true =>
        have := hb rfl x (by rfl)
        rw [hx] at this
        exact absurd this (by decide)
      | false =>
        rw [if_pos hx, if_neg (by decide)]
        rw [hx']
        congr 1
        apply ih hws' hdd'
        intro _ c hc
        have hrel := List.chain'_cons'.mp (hx' ▸ hdd)
        have hne := hrel.1 c hc
        by_contra hsp
        rw [Bool.not_eq_false] at hsp
        have := hws' c (by
          have := List.mem_of_mem_head? hc
          exact this) hsp
        exact hne ⟨rfl, this⟩
    · rw [if_neg hx]
      congr 1
      exact ih hws' hdd' false (by intro h; exact absurd h (by decide))

theorem dropWhile_head_not (p : Char → Bool) (l : List Char) (c : Char)
    (h : (l.dropWhile p).head? = some c) : p c = false := by
  induction l with
  | nil => simp [List.dropWhile] at h
  | cons x xs ih =>
    by_cases hx : p x = true
    · rw [List.dropWhile_cons_of_pos hx] at h
      exact ih h
    · rw [List.dropWhile_cons_of_neg (by simp [hx])] at h
      simp only [List.head?_cons, Option.some.injEq] at h
      rw [← h]
      exact Bool.not_eq_true _ ▸ hx

theorem suffix_getLast? {l2 l : List Char} (hs : l2 <:+ l) (hne : l2 ≠ []) :
    l2.getLast? = l.getLast? := by
  obtain ⟨pre, rfl⟩ := hs
  rw [List.getLast?_append_of_ne_nil]
  exact hne

theorem strip_head_not (l : List Char) (c : Char)
    (h : (pyStripList l).head? = some c) : isPySpace c = false := by
  unfold pyStripList at h
  set X := l.dropWhile isPySpace with hX
  set Y := X.reverse.dropWhile isPySpace with hY
  have hne : Y ≠ [] := by
    intro hemp
    rw [hemp] at h
    simp at h
  have h1 : Y.reverse.head? = some c := h
  rw [List.head?_reverse] at h1
  have h2 : Y.getLast? = X.reverse.getLast? := suffix_getLast? (List.dropWhile_suffix _) hne
  rw [h2, List.getLast?_reverse] at h1
  exact dropWhile_head_not isPySpace l c h1

theorem strip_last_not (l : List Char) (c : Char)
    (h : (pyStripList l).getLast? = some c) : isPySpace c = false := by
  unfold pyStripList at h
  rw [List.getLast?_reverse] at h
  exact dropWhile_head_not isPySpace _ c h

theorem strip_fix (l : List Char)
    (hh : ∀ c, l.head? = some c → isPySpace c = false)
    (hl : ∀ c, l.getLast? = some c → isPySpace c = false) :
    pyStripList l = l := by
  unfold pyStripList
  have h1 : l.dropWhile isPySpace = l := by
    cases l with
    | nil => rfl
    | cons x xs =>
      rw [List.dropWhile_cons_of_neg]
      simp [hh x rfl]
  rw [h1]
  have h2 : l.reverse.dropWhile isPySpace = l.reverse := by
    cases hrev : l.reverse with
    | nil => rfl
    | cons x xs =>
      rw [List.dropWhile_cons_of_neg]
      have : l.getLast? = some x := by
        rw [← List.head?_reverse, hrev]
        rfl
      simp [hl x this]
  rw [h2, List.reverse_reverse]

theorem strip_subset (l : List Char) : ∀ c ∈ pyStripList l, c ∈ l := by
  intro c hc
  unfold pyStripList at hc
  rw [List.mem_reverse] at hc
  have h1 := (List.dropWhile_suffix (l := (l.dropWhile isPySpace).reverse) isPySpace).subset hc
  rw [List.mem_reverse] at h1
  exact (List.dropWhile_suffix isPySpace).subset h1

theorem pyStripList_chain (R : Char → Char → Prop) (hsym : ∀ a b, R a b → R b a)
    (l : List Char) (h : List.Chain' R l) : List.Chain' R (pyStripList l) := by
  unfold pyStripList
  have h1 : List.Chain' R (l.dropWhile isPySpace) := h.suffix (List.dropWhile_suffix _)
  have h2 : List.Chain' R (l.dropWhile isPySpace).reverse :=
    List.chain'_reverse.mpr (h1.imp (fun a b hab => hsym a b hab))
  have h3 : List.Chain' R ((l.dropWhile isPySpace).reverse.dropWhile isPySpace) :=
    h2.suffix (List.dropWhile_suffix _)
  exact List.chain'_reverse.mpr (h3.imp (fun a b hab => hsym a b hab))

theorem map_id_of (f : Char → Char) (l : List Char) (h : ∀ c ∈ l, f c = c) :
    l.map f = l := by
  rw [List.map_congr_left h]
  exact List.map_id' l

theorem translate_space_iff (c : Char) : sanitizeTranslate c = ' ' ↔ c = ' ' := by
  by_cases h : c ∈ invalidFsChars
  · rw [sanitizeTranslate, if_pos h]
    constructor
    · intro hh; exact absurd hh (by decide)
    · intro hh; rw [hh] at h; exact absurd h (by decide)
  · rw [sanitizeTranslate, if_neg h]

theorem translate_wsOk (l : List Char) (h : WsOk l) : WsOk (l.map sanitizeTranslate) := by
  intro d hd hsp
  obtain ⟨c, hc, rfl⟩ := List.mem_map.mp hd
  by_cases hinv : c ∈ invalidFsChars
  · rw [sanitizeTranslate, if_pos hinv] at hsp ⊢
    exact absurd hsp (by decide)
  · rw [sanitizeTranslate, if_neg hinv] at hsp ⊢
    exact h c hc hsp

theorem translate_head_not (l : List Char)
    (hh : ∀ c, l.head? = some c → isPySpace c = false) :
    ∀ d, (l.map sanitizeTranslate).head? = some d → isPySpace d = false := by
  intro d hd
  rw [List.head?_map] at hd
  cases hl : l.head? with
  | none => rw [hl] at hd; simp at hd
  | some c =>
    rw [hl] at hd
    simp only [Option.map_some', Option.some.injEq] at hd
    subst hd
    by_cases hinv : c ∈ invalidFsChars
    · rw [sanitizeTranslate, if_pos hinv]; decide
    · rw [sanitizeTranslate, if_neg hinv]; exact hh c hl

theorem translate_noDD (l : List Char) (h : NoDoubleSpace l) :
    NoDoubleSpace (l.map sanitizeTranslate) := by
  unfold NoDoubleSpace
  rw [List.chain'_map]
  exact h.imp (fun a b hab ⟨ha, hb⟩ =>
    hab ⟨(translate_space_iff a).mp ha, (translate_space_iff b).mp hb⟩)

theorem translate_noInv (l : List Char) :
    ∀ d ∈ l.map sanitizeTranslate, d ∉ invalidFsChars := by
  intro d hd
  obtain ⟨c, _, rfl⟩ := List.mem_map.mp hd
  by_cases hinv : c ∈ invalidFsChars
  · rw [sanitizeTranslate, if_pos hinv]; decide
  · rw [sanitizeTranslate, if_neg hinv]; exact hinv

theorem translate_printOk (l : List Char) (h : ∀ c ∈ l, pyIsPrintable c = true) :
    PrintOk (l.map sanitizeTranslate) := by
  intro d hd
  obtain ⟨c, hc, rfl⟩ := List.mem_map.mp hd
  rw [Bool.or_eq_true]
  left
  by_cases hinv : c ∈ invalidFsChars
  · rw [sanitizeTranslate, if_pos hinv]; decide
  · rw [sanitizeTranslate, if_neg hinv]; exact h c hc

theorem drop_length_takeWhile (p : Char → Bool) (l : List Char) :
    l.drop (l.takeWhile p).length = l.dropWhile p := by
  induction l with
  | nil => rfl
  | cons x xs ih =>
    by_cases hx : p x = true
    · rw [List.takeWhile_cons_of_pos hx, List.dropWhile_cons_of_pos hx]
      simpa using ih
    · rw [List.takeWhile_cons_of_neg (by simp [hx]), List.dropWhile_cons_of_neg (by simp [hx])]
      rfl

theorem collapseDashRuns_cons (x : Char) (rest : List Char) :
    collapseDashRuns (x :: rest) =
      if isDashU x = true then
        (if rest.takeWhile isDashU = [] then x :: collapseDashRuns rest
         else '-' :: collapseDashRuns (rest.drop (rest.takeWhile isDashU).length))
      else x :: collapseDashRuns rest := by
  rw [collapseDashRuns]

theorem collapseDashRuns_nil : collapseDashRuns [] = [] := by
  rw [collapseDashRuns]

theorem cdr_mem (l : List Char) (c : Char) (h : c ∈ collapseDashRuns l) :
    c ∈ l ∨ c = '-' := by
  induction l using collapseDashRuns.induct with
  | case1 => rw [collapseDashRuns_nil] at h; simp at h
  | case2 x rest hdash ds hds ih =>
    rw [collapseDashRuns_cons, if_pos hdash, if_pos hds] at h
    rcases List.mem_cons.mp h with rfl | hm
    · exact Or.inl (List.mem_cons_self c rest)
    · rcases ih hm with h2 | h2
      · exact Or.inl (List.mem_cons_of_mem x h2)
      · exact Or.inr h2
  | case3 x rest hdash ds hds ih =>
    rw [collapseDashRuns_cons, if_pos hdash, if_neg hds] at h
    rcases List.mem_cons.mp h with rfl | hm
    · exact Or.inr rfl
    · rcases ih hm with h2 | h2
      · exact Or.inl (List.mem_cons_of_mem x (List.mem_of_mem_drop h2))
      · exact Or.inr h2
  | case4 x rest hdash ih =>
    rw [collapseDashRuns_cons, if_neg hdash] at h
    rcases List.mem_cons.mp h with rfl | hm
    · exact Or.inl (List.mem_cons_self c rest)
    · rcases ih hm with h2 | h2
      · exact Or.inl (List.mem_cons_of_mem x h2)
      · exact Or.inr h2

theorem cdr_head (l : List Char) (c : Char)
    (h : (collapseDashRuns l).head? = some c) :
    ∃ d, l.head? = some d ∧ (c = d ∨ (isDashU d = true ∧ c = '-')) := by
  cases l with
  | nil => rw [collapseDashRuns_nil] at h; simp at h
  | cons x rest =>
    rw [collapseDashRuns_cons] at h
    by_cases hdash : isDashU x = true
    · rw [if_pos hdash] at h
      by_cases hds : rest.takeWhile isDashU = []
      · rw [if_pos hds] at h
        simp only [List.head?_cons, Option.some.injEq] at h
        exact ⟨x, rfl, Or.inl h.symm⟩
      · rw [if_neg hds] at h
        simp only [List.head?_cons, Option.some.injEq] at h
        exact ⟨x, rfl, Or.inr ⟨hdash, h.symm⟩⟩
    · rw [if_neg hdash] at h
      simp only [List.head?_cons, Option.some.injEq] at h
      exact ⟨x, rfl, Or.inl h.symm⟩

theorem cdr_noDD (l : List Char) (h : NoDoubleSpace l) :
    NoDoubleSpace (collapseDashRuns l) := by
  induction l using collapseDashRuns.induct with
  | case1 => rw [collapseDashRuns_nil]; exact List.chain'_nil
  | case2 x rest hdash ds hds ih =>
    rw [collapseDashRuns_cons, if_pos hdash, if_pos hds]
    apply List.chain'_cons'.mpr
    refine ⟨?_, ih h.tail⟩
    intro y _ hcontra
    rw [hcontra.1] at hdash
    exact absurd hdash (by decide)
  | case3 x rest hdash ds hds ih =>
    rw [collapseDashRuns_cons, if_pos hdash, if_neg hds]
    apply List.chain'_cons'.mpr
    refine ⟨?_, ih (h.tail.suffix (List.drop_suffix _ _))⟩
    intro y _ hcontra
    exact absurd hcontra.1 (by decide)
  | case4 x rest hdash ih =>
    rw [collapseDashRuns_cons, if_neg hdash]
    apply List.chain'_cons'.mpr
    refine ⟨?_, ih h.tail⟩
    intro y hy hcontra
    obtain ⟨d, hd, hcase⟩ := cdr_head rest y hy
    have hxd := (List.chain'_cons'.mp h).1 d hd
    rcases hcase with rfl | ⟨hdd, rfl⟩
    · exact hxd ⟨hcontra.1, hcontra.2⟩
    · exact absurd hcontra.2 (by decide)

theorem cdr_noDashRun (l : List Char) : NoDashRun (collapseDashRuns l) := by
  induction l using collapseDashRuns.induct with
  | case1 => rw [collapseDashRuns_nil]; exact List.chain'_nil
  | case2 x rest hdash ds hds ih =>
    rw [collapseDashRuns_cons, if_pos hdash, if_pos hds]
    apply List.chain'_cons'.mpr
    refine ⟨?_, ih⟩
    intro y hy hcontra
    obtain ⟨d, hd, hcase⟩ := cdr_head rest y hy
    have hdnd : isDashU d = false := by
      cases rest with
      | nil => simp at hd
      | cons e t =>
        simp only [List.head?_cons, Option.some.injEq] at hd
        subst hd
        by_contra hcon
        rw [Bool.not_eq_false] at hcon
        have hds2 : List.takeWhile isDashU (e :: t) = [] := hds
        rw [List.takeWhile_cons_of_pos hcon] at hds2
        simp at hds2
    rcases hcase with rfl | ⟨hdd, rfl⟩
    · rw [hcontra.2] at hdnd; exact absurd hdnd (by decide)
    · rw [hdd] at hdnd; exact absurd hdnd (by decide)
  | case3 x rest hdash ds hds ih =>
    rw [collapseDashRuns_cons, if_pos hdash, if_neg hds]
    apply List.chain'_cons'.mpr
    refine ⟨?_, ih⟩
    intro y hy hcontra
    obtain ⟨d, hd, hcase⟩ := cdr_head _ y hy
    rw [drop_length_takeWhile] at hd
    have hdnd : isDashU d = false := dropWhile_head_not isDashU rest d hd
    rcases hcase with rfl | ⟨hdd, rfl⟩
    · rw [hcontra.2] at hdnd; exact absurd hdnd (by decide)
    · rw [hdd] at hdnd; exact absurd hdnd (by decide)
  | case4 x rest hdash ih =>
    rw [collapseDashRuns_cons, if_neg hdash]
    apply List.chain'_cons'.mpr
    refine ⟨?_, ih⟩
    intro y _ hcontra
    exact hdash hcontra.1

theorem cdr_fix (l : List Char) (h : NoDashRun l) : collapseDashRuns l = l := by
  induction l using collapseDashRuns.induct with
  | case1 => exact collapseDashRuns_nil
  | case2 x rest hdash ds hds ih =>
    rw [collapseDashRuns_cons, if_pos hdash, if_pos hds]
    rw [ih h.tail]
  | case3 x rest hdash ds hds ih =>
    exfalso
    cases rest with
    | nil => exact hds rfl
    | cons e t =>
      by_cases he : isDashU e = true
      · exact (List.chain'_cons'.mp h).1 e rfl ⟨hdash, he⟩
      · apply hds
        show List.takeWhile isDashU (e :: t) = []
        rw [List.takeWhile_cons_of_neg (by simp [he])]
  | case4 x rest hdash ih =>
    rw [collapseDashRuns_cons, if_neg hdash]
    rw [ih h.tail]

theorem prefix_head {p l : List Char} (hp : p <+: l) {c : Char}
    (h : p.head? = some c) : l.head? = some c := by
  obtain ⟨t, rfl⟩ := hp
  cases p with
  | nil => simp at h
  | cons x xs => simpa using h

theorem rstrip_prefix (l : List Char) : pyRstripDotSpace l <+: l := by
  unfold pyRstripDotSpace
  obtain ⟨pre, hpre⟩ := List.dropWhile_suffix
    (l := l.reverse) (fun c => c == '.' || c == ' ')
  refine ⟨pre.reverse, ?_⟩
  have := congrArg List.reverse hpre
  rw [List.reverse_append, List.reverse_reverse] at this
  exact this

theorem rstrip_last (l : List Char) (c : Char)
    (h : (pyRstripDotSpace l).getLast? = some c) : (c == '.' || c == ' ') = false := by
  unfold pyRstripDotSpace at h
  rw [List.getLast?_reverse] at h
  exact dropWhile_head_not _ _ c h

theorem rstrip_fix (l : List Char)
    (h : ∀ c, l.getLast? = some c → (c == '.' || c == ' ') = false) :
    pyRstripDotSpace l = l := by
  unfold pyRstripDotSpace
  have h2 : l.reverse.dropWhile (fun c => c == '.' || c == ' ') = l.reverse := by
    cases hrev : l.reverse with
    | nil => rfl
    | cons x xs =>
      rw [List.dropWhile_cons_of_neg]
      have : l.getLast? = some x := by
        rw [← List.head?_reverse, hrev]; rfl
      simp [h x this]
  rw [h2, List.reverse_reverse]

theorem sanitize_filename_eq (maxLen : Nat) (s : String) :
    sanitize_filename maxLen s =
      String.mk (pyRstripDotSpace ((collapseDashRuns
        (((pyStripList (collapseWsAux false s.data)).map sanitizeTranslate).filter
          (fun c => pyIsPrintable c || decide (c ∈ accentAllowlist)))).take maxLen)) := rfl

theorem noSS_symm (a b : Char) (hab : ¬(a = ' ' ∧ b = ' ')) : ¬(b = ' ' ∧ a = ' ') :=
  fun ⟨hb, ha⟩ => hab ⟨ha, hb⟩

/-- Claim C8 (amended, part proof): `sanitize_filename` is idempotent on
strings whose characters are all printable. -/
theorem sanitize_filename_idempotent (maxLen : Nat) (s : String)
    (h : ∀ c ∈ s.data, pyIsPrintable c = true) :
    sanitize_filename maxLen (sanitize_filename maxLen s) = sanitize_filename maxLen s := by
  rw [sanitize_filename_eq maxLen s]
  set L1 := collapseWsAux false s.data with hL1
  set L2 := pyStripList L1 with hL2
  set L3 := L2.map sanitizeTranslate with hL3
  have hWs2 : WsOk L2 := fun c hc => cw_wsOk false s.data c (strip_subset L1 c hc)
  have hDD2 : NoDoubleSpace L2 := pyStripList_chain _ noSS_symm _ (cw_chain false s.data)
  have hHead2 : ∀ c, L2.head? = some c → isPySpace c = false := strip_head_not L1
  have hPr2 : ∀ c ∈ L2, pyIsPrintable c = true := by
    intro c hc
    rcases cw_mem false s.data c (strip_subset L1 c hc) with hm | rfl
    · exact h c hm
    · decide
  have hWs3 : WsOk L3 := translate_wsOk L2 hWs2
  have hDD3 : NoDoubleSpace L3 := translate_noDD L2 hDD2
  have hHead3 : ∀ c, L3.head? = some c → isPySpace c = false := translate_head_not L2 hHead2
  have hInv3 : ∀ c ∈ L3, c ∉ invalidFsChars := translate_noInv L2
  have hPrint3 : PrintOk L3 := translate_printOk L2 hPr2
  have hFil : L3.filter (fun c => pyIsPrintable c || decide (c ∈ accentAllowlist)) = L3 :=
    List.filter_eq_self.mpr hPrint3
  rw [hFil]
  set L5 := collapseDashRuns L3 with hL5
  have hDR5 : NoDashRun L5 := cdr_noDashRun L3
  have hDD5 : NoDoubleSpace L5 := cdr_noDD L3 hDD3
  have hmem5 : ∀ c ∈ L5, c ∈ L3 ∨ c = '-' := cdr_mem L3
  have hWs5 : WsOk L5 := by
    intro c hc hsp
    rcases hmem5 c hc with hm | rfl
    · exact hWs3 c hm hsp
    · exact absurd hsp (by decide)
  have hHead5 : ∀ c, L5.head? = some c → isPySpace c = false := by
    intro c hc
    obtain ⟨d, hd, hcase⟩ := cdr_head L3 c hc
    rcases hcase with rfl | ⟨_, rfl⟩
    · exact hHead3 c hd
    · decide
  have hInv5 : ∀ c ∈ L5, c ∉ invalidFsChars := by
    intro c hc
    rcases hmem5 c hc with hm | rfl
    · exact hInv3 c hm
    · decide
  have hPrint5 : PrintOk L5 := by
    intro c hc
    rcases hmem5 c hc with hm | rfl
    · exact hPrint3 c hm
    · decide
  set L6 := L5.take maxLen with hL6
  have hpre6 : L6 <+: L5 := List.take_prefix maxLen L5
  set T := pyRstripDotSpace L6 with hT
  have hpreT : T <+: L6 := rstrip_prefix L6
  have hsubT : ∀ c ∈ T, c ∈ L5 := fun c hc => hpre6.subset (hpreT.subset hc)
  have hWsT : WsOk T := fun c hc => hWs5 c (hsubT c hc)
  have hDDT0 : NoDoubleSpace L6 := List.Chain'.prefix hDD5 hpre6
  have hDDT : NoDoubleSpace T := List.Chain'.prefix hDDT0 hpreT
  have hDRT0 : NoDashRun L6 := List.Chain'.prefix (cdr_noDashRun L3) hpre6
  have hDRT : NoDashRun T := List.Chain'.prefix hDRT0 hpreT
  have hHeadT : ∀ c, T.head? = some c → isPySpace c = false :=
    fun c hc => hHead5 c (prefix_head hpre6 (prefix_head hpreT hc))
  have hInvT : ∀ c ∈ T, c ∉ invalidFsChars := fun c hc => hInv5 c (hsubT c hc)
  have hPrintT : PrintOk T := fun c hc => hPrint5 c (hsubT c hc)
  have hLenT : T.length ≤ maxLen :=
    le_trans hpreT.length_le (List.length_take_le maxLen L5)
  have hLastT : ∀ c, T.getLast? = some c → (c == '.' || c == ' ') = false := rstrip_last L6
  have hLastT' : ∀ c, T.getLast? = some c → isPySpace c = false := by
    intro c hc
    by_contra hcon
    rw [Bool.not_eq_false] at hcon
    have hmem : c ∈ T := List.mem_of_mem_getLast? hc
    have hsp : c = ' ' := hWsT c hmem hcon
    have := hLastT c hc
    rw [hsp] at this
    exact absurd this (by decide)
  rw [sanitize_filename_eq]
  have hdata : (String.mk T).data = T := rfl
  rw [hdata]
  have e1 : collapseWsAux false T = T :=
    cw_fix_aux T hWsT hDDT false (fun hcon => absurd hcon (by decide))
  have e2 : pyStripList T = T := strip_fix T hHeadT hLastT'
  have e3 : T.map sanitizeTranslate = T :=
    map_id_of _ T (fun c hc => by rw [sanitizeTranslate, if_neg (hInvT c hc)])
  have e4 : T.filter (fun c => pyIsPrintable c || decide (c ∈ accentAllowlist)) = T :=
    List.filter_eq_self.mpr hPrintT
  have e5 : collapseDashRuns T = T := cdr_fix T hDRT
  have e6 : T.take maxLen = T := List.take_of_length_le hLenT
  have e7 : pyRstripDotSpace T = T := rstrip_fix T hLastT
  rw [e1, e2, e3, e4, e5, e6, e7]

/-- Claim C8 (counterexample): neither normalizer is idempotent on every
string. `sanitize_filename` changes under a second application on
`"a \x01 b"` (deleting the non-printable character leaves a double space
only collapsed the second time), and `clean_search_query_nome_arquivo`
changes on `"a 12 34 b"` (removing the first isolated number makes the
second isolated only on the next pass). -/
theorem C8_counterexample :
    sanitize_filename 180 (sanitize_filename 180 "a \x01 b") ≠
      sanitize_filename 180 "a \x01 b" ∧
    clean_search_query_nome_arquivo (clean_search_query_nome_arquivo "a 12 34 b") ≠
      clean_search_query_nome_arquivo "a 12 34 b" := by
  constructor
  · have h1 : sanitize_filename 180 "a \x01 b" = "a  b" := by
      rw [sanitize_filename_eq]
      rw [show ((pyStripList (collapseWsAux false ("a \x01 b" : String).data)).map
            sanitizeTranslate).filter
            (fun c => pyIsPrintable c || decide (c ∈ accentAllowlist)) =
          ("a  b" : String).data from by rfl]
      rw [cdr_fix _ (by
        unfold NoDashRun
        show List.Chain' _ ['a', ' ', ' ', 'b']
        simp only [List.chain'_cons, List.chain'_singleton, and_true]
        decide)]
      rfl
    have h2 : sanitize_filename 180 "a  b" = "a b" := by
      rw [sanitize_filename_eq]
      rw [show ((pyStripList (collapseWsAux false ("a  b" : String).data)).map
            sanitizeTranslate).filter
            (fun c => pyIsPrintable c || decide (c ∈ accentAllowlist)) =
          ("a b" : String).data from by rfl]
      rw [cdr_fix _ (by
        unfold NoDashRun
        show List.Chain' _ ['a', ' ', 'b']
        simp only [List.chain'_cons, List.chain'_singleton, and_true]
        decide)]
      rfl
    rw [h1, h2]
    decide
  · decide

/-- Claim C8 (amended): `sanitize_filename` applied twice yields the same
result as once for every truncation bound and every string whose
characters are all printable; idempotence fails in general for both
normalizers (see the counterexample). -/
theorem C8_amended :
    ∀ (maxLen : Nat) (s : String), (∀ c ∈ s.data, pyIsPrintable c = true) →
      sanitize_filename maxLen (sanitize_filename maxLen s) = sanitize_filename maxLen s :=
  sanitize_filename_idempotent

/-- Witness for C8 at a printable concrete filename. -/
theorem C8_witness :
    (∀ c ∈ ("O Alquimista - Paulo Coelho" : String).data, pyIsPrintable c = true) ∧
    sanitize_filename 180 (sanitize_filename 180 "O Alquimista - Paulo Coelho")
      = sanitize_filename 180 "O Alquimista - Paulo Coelho" :=
  ⟨by decide, C8_amended 180 "O Alquimista - Paulo Coelho" (by decide)⟩

/-- Claim C7 (counterexample): the filename parser does not return the
split stated in the spec on either fixture — the known-author loop keeps
the year suffix in the title of the first fixture and returns the
lower-cased `KNOWN_AUTHORS` entry, not the capitalized author, on both. -/
theorem C7_counterexample :
    extract_title_author_from_filename "Stephen King - The Shining (1977)" ("", none) ≠
      ("The Shining", some "Stephen King") ∧
    extract_title_author_from_filename "Dan Brown - Angels and Demons" ("", none) ≠
      ("Angels and Demons", some "Dan Brown") := by
  constructor
  · decide
  · decide

/-- Claim C7 (amended): on the fixtures the known-author loop fires
(regardless of the pattern-cascade fallback) and returns title
`"The Shining (1977)"` with author `"stephen king"`, and title
`"Angels and Demons"` with author `"dan brown"`. -/
theorem C7_amended :
    ∀ fallback : String × Option String,
      extract_title_author_from_filename "Stephen King - The Shining (1977)" fallback =
        ("The Shining (1977)", some "stephen king") ∧
      extract_title_author_from_filename "Dan Brown - Angels and Demons" fallback =
        ("Angels and Demons", some "dan brown") :=
  fun _ => ⟨rfl, rfl⟩

theorem searchByIsbnGB_score (isbn : String) (l : List GBVolume) (r : ApiMeta)
    (h : searchByIsbnGB isbn l = some r) : r.score = 1 := by
  induction l with
  | nil => exact absurd h (by simp [searchByIsbnGB])
  | cons v rest ih =>
    unfold searchByIsbnGB at h
    split_ifs at h with h1 h2 h3
    · rw [Option.some.injEq] at h
      subst h
      rfl
    · rw [Option.some.injEq] at h
      subst h
      rfl
    · exact ih h
    · exact ih h

theorem search_by_isbn_score_one (isbn : String) (gb : Option (List GBVolume))
    (ol : Option OLData) (r : ApiMeta)
    (h : search_by_isbn isbn gb ol = some r) : r.score = 1 := by
  unfold search_by_isbn at h
  split at h
  · rename_i rg heq
    rw [Option.some.injEq] at h
    subst h
    cases gb with
    | none => exact absurd heq (by simp)
    | some items => exact searchByIsbnGB_score isbn items rg heq
  · split at h
    · exact absurd h (by simp)
    · rename_i d
      split_ifs at h with h1 h2
      rw [Option.some.injEq] at h
      subst h
      rfl

/-- Claim C10: whenever `search_by_isbn` returns a candidate — from the
Google Books branch or the Open Library branch — its score is exactly
`1.0`, so the ISBN stage's `> 0.8` gate accepts every candidate the
lookup actually returns. -/
theorem C10_isbn_score_gate (env : Env) (isbn : String) (r : ApiMeta)
    (h1 : env.extractedIsbn = some isbn)
    (h2 : search_by_isbn isbn env.gbIsbnItems env.olIsbnData = some r) :
    r.score = 1 ∧
    extract_and_search_isbn env = some { r with isbn := some isbn, isbn_found := true } := by
  have hs := search_by_isbn_score_one _ _ _ _ h2
  refine ⟨hs, ?_⟩
  unfold extract_and_search_isbn
  simp only [h1, h2]
  rw [if_pos (by rw [hs]; norm_num)]

/-- Witness for C10 at a concrete Open Library response. -/
theorem C10_witness :
    envC10.extractedIsbn = some "0306406152" ∧
    search_by_isbn "0306406152" envC10.gbIsbnItems envC10.olIsbnData = some c10meta ∧
    c10meta.score = 1 ∧
    extract_and_search_isbn envC10 =
      some { c10meta with isbn := some "0306406152", isbn_found := true } :=
  ⟨rfl, rfl,
   (C10_isbn_score_gate envC10 "0306406152" c10meta rfl rfl).1,
   (C10_isbn_score_gate envC10 "0306406152" c10meta rfl rfl).2⟩

/-- Claim C2: when the ISBN stage finds an ISBN and the lookup returns a
candidate with score `≥ 0.8`, `process_file` resolves with that candidate
from the ISBN stage and the local-metadata and filename stages are never
invoked (the two instrumentation booleans stay `false`). -/
theorem C2_isbn_priority (env : Env) (isbn : String) (r : ApiMeta)
    (hex : env.fileExists = true)
    (h1 : env.extractedIsbn = some isbn)
    (h2 : search_by_isbn isbn env.gbIsbnItems env.olIsbnData = some r)
    (hsc : r.score ≥ 4/5) :
    process_file_t env =
      (Resolution.resolved Stage.isbn { r with isbn := some isbn, isbn_found := true },
       false, false) := by
  have hs := search_by_isbn_score_one _ _ _ _ h2
  have hgate : extract_and_search_isbn env =
      some { r with isbn := some isbn, isbn_found := true } := by
    unfold extract_and_search_isbn
    simp only [h1, h2]
    rw [if_pos (by rw [hs]; norm_num)]
  unfold process_file_t
  simp only [hex, hgate]
  rfl

/-- Witness for C2 at a concrete Google Books response. -/
theorem C2_witness :
    envC2.fileExists = true ∧
    envC2.extractedIsbn = some "9780306406157" ∧
    search_by_isbn "9780306406157" envC2.gbIsbnItems envC2.olIsbnData = some c2meta ∧
    c2meta.score ≥ 4/5 ∧
    process_file_t envC2 =
      (Resolution.resolved Stage.isbn
        { c2meta with isbn := some "9780306406157", isbn_found := true },
       false, false) :=
  ⟨rfl, rfl, rfl, by show (4 : ℚ)/5 ≤ 1; norm_num,
   C2_isbn_priority envC2 "9780306406157" c2meta rfl rfl rfl
     (by show (4 : ℚ)/5 ≤ 1; norm_num)⟩

theorem trySim_validated (s : String) (r : ApiMeta) (b : Bool)
    (h : trySim s = some (r, b)) : validate_metadata (metaDictOf r) = true := by
  unfold trySim at h
  split at h
  · rename_i r0 heq
    simp only [Option.some.injEq, Prod.mk.injEq] at h
    obtain ⟨hr, _⟩ := h
    subst hr
    unfold buscar_simulacao at heq
    split_ifs at heq with hh1 hh2
    · rw [Option.some.injEq] at heq
      subst heq
      decide
    · rw [Option.some.injEq] at heq
      subst heq
      decide
  · exact absurd h (by simp)

theorem filename_validated (env : Env) (r : ApiMeta) (b : Bool)
    (h : extract_and_search_filename env = some (r, b)) :
    validate_metadata (metaDictOf r) = true := by
  simp only [extract_and_search_filename] at h
  split at h
  · rename_i r0 heq
    simp only [Option.some.injEq, Prod.mk.injEq] at h
    obtain ⟨hr, _⟩ := h
    subst hr
    split_ifs at heq with ht
    split at heq
    · rename_i resultado hb
      split_ifs at heq with hval
      rw [Option.some.injEq] at heq
      subst heq
      exact hval
    · exact absurd heq (by simp)
  · split at h
    · rename_i resultado hb
      split_ifs at h with hval
      · simp only [Option.some.injEq, Prod.mk.injEq] at h
        obtain ⟨hr, _⟩ := h
        subst hr
        exact hval
      · exact trySim_validated _ r b h
    · exact trySim_validated _ r b h

theorem stage3_validated (env : Env) (stage : Stage) (r : ApiMeta)
    (h : processStage3 env = Resolution.resolved stage r) :
    validate_metadata (metaDictOf r) = true := by
  unfold processStage3 at h
  split at h
  · rename_i r0 sim heq
    split_ifs at h with hf hsim
    · simp only [Resolution.resolved.injEq] at h
      obtain ⟨_, hr⟩ := h
      subst hr
      exact filename_validated env r0 sim heq
    · simp only [Resolution.resolved.injEq] at h
      obtain ⟨_, hr⟩ := h
      subst hr
      exact filename_validated env r0 sim heq
  · exact absurd h (by simp)

theorem api_validated (env : Env) (ra : ApiMeta)
    (h : extract_and_search_api env = some ra) :
    validate_metadata (metaDictOf ra) = true := by
  unfold extract_and_search_api at h
  split at h
  · exact absurd h (by simp)
  · rename_i t0
    split_ifs at h with ht
    split at h
    · rename_i resultado hb
      split_ifs at h with hval
      rw [Option.some.injEq] at h
      subst h
      exact hval
    · exact absurd h (by simp)

theorem stage23_validated (env : Env) (stage : Stage) (r : ApiMeta)
    (h : (stage23 env).1 = Resolution.resolved stage r) :
    validate_metadata (metaDictOf r) = true := by
  unfold stage23 at h
  split at h
  · rename_i ra heq
    split_ifs at h with hapi
    · have h' : Resolution.resolved Stage.localApi ra = Resolution.resolved stage r := h
      simp only [Resolution.resolved.injEq] at h'
      obtain ⟨_, hr⟩ := h'
      subst hr
      exact api_validated env ra heq
    · exact stage3_validated env stage r h
  · exact stage3_validated env stage r h

/-- Claim C1 (counterexample): a record accepted by the ISBN stage
reaches the Filer without ever passing the Metadata Validator — its title
contains the placeholder token `unknown`, so `validate_metadata` rejects
it, yet `process_file` resolves with it. -/
theorem C1_counterexample :
    process_file envC1 = Resolution.resolved Stage.isbn c1final ∧
    validate_metadata (metaDictOf c1final) = false := by
  constructor
  · have h2 : search_by_isbn "0306406152" envC1.gbIsbnItems envC1.olIsbnData =
        some c1meta := rfl
    have hgate : extract_and_search_isbn envC1 = some c1final := by
      unfold extract_and_search_isbn
      simp only [show envC1.extractedIsbn = some "0306406152" from rfl, h2]
      rw [if_pos (show c1meta.score > 4/5 from by show (4 : ℚ)/5 < 1; norm_num)]
      rfl
    unfold process_file process_file_t
    simp only [show envC1.fileExists = true from rfl, hgate]
    rfl
  · decide

/-- Claim C1 (amended): every record `process_file` resolves with from a
stage other than the ISBN stage — local metadata, filename search, or the
simulation fallback — has passed `validate_metadata`; the ISBN stage is
the one stage whose records bypass the validator. -/
theorem C1_amended (env : Env) (stage : Stage) (r : ApiMeta)
    (h : process_file env = Resolution.resolved stage r)
    (hne : stage ≠ Stage.isbn) :
    validate_metadata (metaDictOf r) = true := by
  unfold process_file process_file_t at h
  split_ifs at h with hex
  · split at h
    · rename_i ri heq
      split_ifs at h with hfound
      · have h' : Resolution.resolved Stage.isbn ri = Resolution.resolved stage r := h
        simp only [Resolution.resolved.injEq] at h'
        exact absurd h'.1.symm hne
      · exact stage23_validated env stage r h
    · exact stage23_validated env stage r h

/-- Witness for C1 at a concrete local-metadata resolution. -/
theorem C1_witness :
    process_file envC1W = Resolution.resolved Stage.localApi c1wFinal ∧
    Stage.localApi ≠ Stage.isbn ∧
    validate_metadata (metaDictOf c1wFinal) = true := by
  have h1 : process_file envC1W = Resolution.resolved Stage.localApi c1wFinal := rfl
  exact ⟨h1, by decide, C1_amended envC1W Stage.localApi c1wFinal h1 (by decide)⟩

end Livrando
